import Mathlib

/-!
A shallow embedding of the URL-shortener's core (link model, Redis-backed
resolution cache, shortcode validation, link services, controllers and the
cleanup job), translated from the Python sources, together with theorems
settling the specification claims.

Conventions of the embedding:
* timestamps are integers (epoch seconds); `datetime` values are `Int`,
  optional datetimes are `Option Int`;
* Python `None`-able strings are `Option String`; Python truthiness of a
  string option (`if s:`) is `pyTruthyOpt`;
* the database session is a list of `Link` rows; `query(...).first()` is
  `List.find?`; `db.delete` removes the row by primary key;
* the global Redis client is `Option Redis`: `none` models an unavailable
  or unconfigured cache (the `if not redis: return` paths);
* raised exceptions are modelled by the `PyResult` outcome type:
  `httpError` for a raised `HTTPException`, `exn` for any other uncaught
  exception (e.g. an `IntegrityError` from the store).
-/

/-- Named characters, used instead of quote/backslash literals. -/
def squote : Char := Char.ofNat 39

/-- The double-quote character. -/
def dquote : Char := Char.ofNat 34

/-- The backslash character. -/
def bslash : Char := Char.ofNat 92

/-- The opening curly brace character. -/
def lbrace : Char := Char.ofNat 123

/-- The closing curly brace character. -/
def rbrace : Char := Char.ofNat 125

/-- Python truthiness of an optional string: `None` and `""` are falsy. -/
def pyTruthyOpt : Option String → Bool
  | none => false
  | some s => s ≠ ""

/-- Python values that occur in a link's stats dictionary
(`Link.to_stats_dict` only produces `None`, `int` and `str` values). -/
inductive PyVal where
  | vnone : PyVal
  | vint : Int → PyVal
  | vstr : String → PyVal
deriving DecidableEq

/-- A Python dict with string keys, in insertion order. -/
abbrev PyDict := List (String × PyVal)

/-- One row of the `links` table (`api/models/links.py`). -/
structure Link where
  id : String
  original_url : String
  short_code : String
  custom_alias : Option String
  created_at : Option Int
  expires_at : Option Int
  last_accessed_at : Option Int
  access_count : Nat
  is_active : Bool
  user_id : Option String
deriving DecidableEq

/-- `Link.is_expired`: false when `expires_at` is `None`, otherwise
`now > expires_at`. -/
def Link.is_expired (now : Int) (l : Link) : Bool :=
  match l.expires_at with
  | none => false
  | some e => now > e

/-- `Link.to_stats_dict`, parameterised by the external
`datetime.isoformat` rendering (`iso`). -/
def Link.to_stats_dict (iso : Int → String) (l : Link) : PyDict :=
  [("short_code", .vstr l.short_code),
   ("original_url", .vstr l.original_url),
   ("created_at", match l.created_at with | some t => .vstr (iso t) | none => .vnone),
   ("access_count", .vint l.access_count),
   ("last_accessed_at", match l.last_accessed_at with | some t => .vstr (iso t) | none => .vnone)]

/-- The database session state: the rows of the `links` table. -/
abbrev DB := List Link

/-- A cached Redis value: the stored string and the TTL passed to `set`
(`ex=`), when one was given. -/
structure RVal where
  value : String
  ttl : Option Int
deriving DecidableEq

/-- The Redis key-value state. -/
abbrev Redis := List (String × RVal)

/-- `redis.set(k, v, ex=ttl)`: overwrite the key. -/
def redisSet (r : Redis) (k v : String) (ttl : Option Int) : Redis :=
  (k, ⟨v, ttl⟩) :: r.filter (fun e => e.1 ≠ k)

/-- `redis.get(k)`. -/
def redisGet (r : Redis) (k : String) : Option String :=
  (r.find? (fun e => e.1 = k)).map (fun e => e.2.value)

/-- `redis.delete(k)`. -/
def redisDelete (r : Redis) (k : String) : Redis :=
  r.filter (fun e => e.1 ≠ k)

/-- The `link:` cache key for a short code (`LINK_PREFIX`). -/
def linkKey (short_code : String) : String := "link:" ++ short_code

/-- The `stats:` cache key for a short code (`STATS_PREFIX`). -/
def statsKey (short_code : String) : String := "stats:" ++ short_code

/-- The `stats:<code>:count` access-counter key. -/
def countKey (short_code : String) : String := "stats:" ++ short_code ++ ":count"

/-- `cache_link` (`core/redis_client.py`): no-op when the client is
unavailable; when `expires_at` is given, computes the remaining seconds and
skips the write entirely when that is `<= 0`; otherwise `set` with that TTL
(or no TTL when `expires_at` is absent). -/
def cache_link (now : Int) (r : Option Redis) (short_code original_url : String)
    (expires_at : Option Int) : Option Redis :=
  match r with
  | none => none
  | some redis =>
    match expires_at with
    | none => some (redisSet redis (linkKey short_code) original_url none)
    | some e =>
      let expire_seconds := e - now
      if expire_seconds ≤ 0 then some redis
      else some (redisSet redis (linkKey short_code) original_url (some expire_seconds))

/-- `get_cached_link`: `None` (a miss) when the client is unavailable,
otherwise `redis.get("link:" + code)`. -/
def get_cached_link (r : Option Redis) (short_code : String) : Option String :=
  match r with
  | none => none
  | some redis => redisGet redis (linkKey short_code)

/-- `delete_cached_link`: removes both the URL entry and the cached
statistics snapshot; no-op when the client is unavailable. -/
def delete_cached_link (r : Option Redis) (short_code : String) : Option Redis :=
  match r with
  | none => none
  | some redis =>
    some (redisDelete (redisDelete redis (linkKey short_code)) (statsKey short_code))

/-- Decimal digits of a natural number, most significant first. -/
def natDecimalChars (n : Nat) : List Char :=
  if h : n < 10 then [Char.ofNat (48 + n)]
  else natDecimalChars (n / 10) ++ [Char.ofNat (48 + n % 10)]
termination_by n
decreasing_by
  exact Nat.div_lt_self (Nat.lt_of_lt_of_le (by norm_num) (Nat.le_of_not_lt h)) (by norm_num)

/-- Decimal rendering of an integer (Python `str(int)`). -/
def intDecimalChars (n : Int) : List Char :=
  if n < 0 then '-' :: natDecimalChars n.natAbs else natDecimalChars n.toNat

/-- `str.isdigit`-style digit test restricted to ASCII decimal digits. -/
def isDigitChar (c : Char) : Bool := 48 ≤ c.toNat && c.toNat ≤ 57

/-- Parse leading decimal digits, accumulating into `acc`; returns the
value and the unconsumed remainder. -/
def pdigitsAux : List Char → Nat → Nat × List Char
  | [], acc => (acc, [])
  | c :: cs, acc =>
    if isDigitChar c then pdigitsAux cs (acc * 10 + (c.toNat - 48)) else (acc, c :: cs)

/-- `increment_link_access`: no-op when the client is unavailable;
otherwise `INCR` on the counter key (modelled on the happy path where the
stored value, if any, is a decimal integer; absent counts as 0). -/
def increment_link_access (r : Option Redis) (short_code : String) : Option Redis :=
  match r with
  | none => none
  | some redis =>
    let cur : Nat := match redisGet redis (countKey short_code) with
      | none => 0
      | some s => (pdigitsAux s.data 0).1
    some (redisSet redis (countKey short_code) (String.mk (natDecimalChars (cur + 1))) none)

/-!
### The stats-snapshot encoding

`cache_link_stats` stores `str(stats_data)` (Python `repr` of a dict) and
`get_cached_link_stats` reads it back via
`json.loads(stats_str.replace("'", '"'))`.  The rendering below models
Python `repr` on the value types reachable from `to_stats_dict`
(`None`/`int`/`str`), including backslash/quote escaping and the `\xNN`
escapes `repr` uses for non-printable ASCII; the parser models `json.loads`
on object payloads of scalar values, which is the shape of every string
`cache_link_stats` writes.  Unicode-specific `repr` escaping (of
non-printable characters above ASCII) and JSON surrogate pairs are outside
the modelled value range.
-/

/-- Hexadecimal digit character (lowercase, as Python `repr` emits). -/
def hexChar (n : Nat) : Char :=
  if n < 10 then Char.ofNat (48 + n) else Char.ofNat (97 + (n - 10))

/-- Python `repr` escaping of one character inside a `q`-quoted string
literal: backslash and `q` are backslash-escaped, tab/newline/return use
their short escapes, other non-printable ASCII uses `\xNN`. -/
def pyEscapeChar (q c : Char) : List Char :=
  if c = bslash then [bslash, bslash]
  else if c.toNat = 9 then [bslash, 't']
  else if c.toNat = 10 then [bslash, 'n']
  else if c.toNat = 13 then [bslash, 'r']
  else if c = q then [bslash, q]
  else if c.toNat < 32 || c.toNat = 127 then
    [bslash, 'x', hexChar (c.toNat / 16), hexChar (c.toNat % 16)]
  else [c]

/-- Python `repr` of a string: double-quoted when the string contains a
single quote but no double quote, otherwise single-quoted with escaping. -/
def pyReprStrChars (s : String) : List Char :=
  if s.data.contains squote && !s.data.contains dquote then
    dquote :: s.data.flatMap (pyEscapeChar dquote) ++ [dquote]
  else
    squote :: s.data.flatMap (pyEscapeChar squote) ++ [squote]

/-- Python `repr` of a stats value. -/
def pyReprValChars : PyVal → List Char
  | .vnone => ['N', 'o', 'n', 'e']
  | .vint n => intDecimalChars n
  | .vstr s => pyReprStrChars s

/-- One `key: value` entry of `str(dict)`. -/
def renderEntry (kv : String × PyVal) : List Char :=
  pyReprStrChars kv.1 ++ ':' :: ' ' :: pyReprValChars kv.2

/-- The `", "`-separated entries of `str(dict)`. -/
def renderMembers : PyDict → List Char
  | [] => []
  | [kv] => renderEntry kv
  | kv :: rest => renderEntry kv ++ ',' :: ' ' :: renderMembers rest

/-- Python `str(dict)`: braces around the rendered entries. -/
def pyStrDict (d : PyDict) : String :=
  String.mk (lbrace :: renderMembers d ++ [rbrace])

/-- Python `s.replace("'", '"')` for the single-character pattern: a
character-wise substitution. -/
def mapQuote (l : List Char) : List Char :=
  l.map (fun c => if c = squote then dquote else c)

/-- JSON insignificant whitespace. -/
def isJsonWs (c : Char) : Bool :=
  c.toNat = 32 || c.toNat = 9 || c.toNat = 10 || c.toNat = 13

/-- Skip JSON whitespace. -/
def skipWs (l : List Char) : List Char := l.dropWhile isJsonWs

/-- JSON single-character escapes. -/
def jsonUnescape (c : Char) : Option Char :=
  if c = dquote || c = bslash || c = '/' then some c
  else if c = 'n' then some (Char.ofNat 10)
  else if c = 't' then some (Char.ofNat 9)
  else if c = 'r' then some (Char.ofNat 13)
  else if c = 'b' then some (Char.ofNat 8)
  else if c = 'f' then some (Char.ofNat 12)
  else none

/-- Value of a hexadecimal digit character. -/
def hexVal (c : Char) : Option Nat :=
  if 48 ≤ c.toNat && c.toNat ≤ 57 then some (c.toNat - 48)
  else if 97 ≤ c.toNat && c.toNat ≤ 102 then some (c.toNat - 87)
  else if 65 ≤ c.toNat && c.toNat ≤ 70 then some (c.toNat - 55)
  else none

/-- JSON string-literal body (after the opening quote): returns the decoded
characters and the remainder after the closing quote.  `\xNN` is not a JSON
escape and fails, as in `json.loads`. -/
def pstrBody : List Char → Option (List Char × List Char)
  | [] => none
  | c :: cs =>
    if c = dquote then some ([], cs)
    else if c = bslash then
      match cs with
      | [] => none
      | e :: cs2 =>
        if e = 'u' then
          match cs2 with
          | a :: b :: c2 :: d :: cs3 =>
            match hexVal a, hexVal b, hexVal c2, hexVal d with
            | some x, some y, some z, some w =>
              (pstrBody cs3).map (fun p => (Char.ofNat (((x * 16 + y) * 16 + z) * 16 + w) :: p.1, p.2))
            | _, _, _, _ => none
          | _ => none
        else
          match jsonUnescape e with
          | some u => (pstrBody cs2).map (fun p => (u :: p.1, p.2))
          | none => none
    else (pstrBody cs).map (fun p => (c :: p.1, p.2))

/-- JSON scalar value: string, number, or `null`. -/
def pvalue (cs : List Char) : Option (PyVal × List Char) :=
  match cs with
  | [] => none
  | c :: rest =>
    if c = dquote then (pstrBody rest).map (fun p => (.vstr (String.mk p.1), p.2))
    else if c = '-' then
      match rest with
      | d :: _ =>
        if isDigitChar d then
          let p := pdigitsAux rest 0
          some (.vint (-(p.1 : Int)), p.2)
        else none
      | [] => none
    else if isDigitChar c then
      let p := pdigitsAux (c :: rest) 0
      some (.vint (p.1 : Int), p.2)
    else if cs.take 4 = ['n', 'u', 'l', 'l'] then some (.vnone, cs.drop 4)
    else none

/-- JSON object members after the opening brace: `"key": value` entries
separated by commas, up to and including the closing brace. -/
def pmembers : Nat → List Char → Option (PyDict × List Char)
  | 0, _ => none
  | fuel + 1, cs =>
    match skipWs cs with
    | [] => none
    | c :: rest =>
      if c = dquote then
        match pstrBody rest with
        | none => none
        | some (k, r1) =>
          match skipWs r1 with
          | ':' :: r2 =>
            match pvalue (skipWs r2) with
            | none => none
            | some (v, r3) =>
              match skipWs r3 with
              | ',' :: r4 => (pmembers fuel r4).map (fun p => ((String.mk k, v) :: p.1, p.2))
              | c2 :: r4 => if c2 = rbrace then some ([(String.mk k, v)], r4) else none
              | [] => none
          | _ => none
      else none

/-- One unfolding of `pmembers` at positive fuel (used in proofs). -/
def pmembersBody (fuel : Nat) (cs : List Char) : Option (PyDict × List Char) :=
  match skipWs cs with
  | [] => none
  | c :: rest =>
    if c = dquote then
      match pstrBody rest with
      | none => none
      | some (k, r1) =>
        match skipWs r1 with
        | ':' :: r2 =>
          match pvalue (skipWs r2) with
          | none => none
          | some (v, r3) =>
            match skipWs r3 with
            | ',' :: r4 => (pmembers fuel r4).map (fun p => ((String.mk k, v) :: p.1, p.2))
            | c2 :: r4 => if c2 = rbrace then some ([(String.mk k, v)], r4) else none
            | [] => none
        | _ => none
    else none

/-- `json.loads` on an object payload. -/
def jsonLoads (s : String) : Option PyDict :=
  match skipWs s.data with
  | c :: rest =>
    if c = lbrace then
      match skipWs rest with
      | c2 :: r2 =>
        if c2 = rbrace then
          if (skipWs r2).isEmpty then some [] else none
        else
          match pmembers (rest.length + 1) rest with
          | some (d, r) => if (skipWs r).isEmpty then some d else none
          | none => none
      | [] => none
    else none
  | [] => none

/-- Outcome of reading the cached statistics snapshot. -/
inductive StatsRead where
  | miss : StatsRead
  | ok : PyDict → StatsRead
  | error : StatsRead
deriving DecidableEq

/-- `cache_link_stats`: no-op when the client is unavailable, otherwise
`setex` of `str(stats_data)` with a 3600-second TTL. -/
def cache_link_stats (r : Option Redis) (short_code : String) (stats_data : PyDict) :
    Option Redis :=
  match r with
  | none => none
  | some redis => some (redisSet redis (statsKey short_code) (pyStrDict stats_data) (some 3600))

/-- `get_cached_link_stats`: a miss when the client is unavailable or the
key is absent (or holds an empty string, which is falsy); otherwise
`json.loads` of the stored string with single quotes replaced by double
quotes, `error` modelling a raised parse exception. -/
def get_cached_link_stats (r : Option Redis) (short_code : String) : StatsRead :=
  match r with
  | none => .miss
  | some redis =>
    match redisGet redis (statsKey short_code) with
    | none => .miss
    | some s =>
      if s = "" then .miss
      else
        match jsonLoads (String.mk (mapQuote s.data)) with
        | some d => .ok d
        | none => .error

/-!
### Shortcode generation and validation (`services/shortcode_generator.py`)
-/

/-- ASCII lowercasing of one character (Python `str.lower` on the ASCII
range; characters outside `[A-Z]` are unchanged). -/
def lowerChar (c : Char) : Char :=
  if 65 <= c.toNat && c.toNat <= 90 then Char.ofNat (c.toNat + 32) else c

/-- ASCII lowercasing of a string (`custom_alias.lower()`; every string
that reaches the reserved-word check has already passed the ASCII
charset check, where Python's `lower` agrees with this map). -/
def pyLower (s : String) : String := String.mk (s.data.map lowerChar)

/-- A character matched by the alias pattern `[a-zA-Z0-9_-]`. -/
def isAliasChar (c : Char) : Bool :=
  ('a' ≤ c && c ≤ 'z') || ('A' ≤ c && c ≤ 'Z') || ('0' ≤ c && c ≤ '9') || c = '_' || c = '-'

/-- The reserved words rejected for custom aliases. -/
def reserved_words : List String :=
  ["api", "admin", "auth", "links", "stats", "search", "shorten"]

/-- `re.match` of the pattern `^[a-zA-Z0-9_-]+$` on a character list:
Python's `$` (without `re.M`) matches at the end of the string or just
before one trailing newline, so the pattern accepts a nonempty run of
alias characters followed by at most one final newline. -/
def reMatchAliasFull (l : List Char) : Bool :=
  (!l.isEmpty && l.all isAliasChar) ||
  ((l.getLast? == some '\n') && !l.dropLast.isEmpty && l.dropLast.all isAliasChar)

/-- `validate_custom_alias`: length between 3 and 20, the full-match
regex `^[a-zA-Z0-9_-]+$` (including its trailing-newline acceptance),
and the lowercased alias not a reserved word. -/
def validate_custom_alias (custom_alias : String) : Bool :=
  if !(3 ≤ custom_alias.length && custom_alias.length ≤ 20) then false
  else if !reMatchAliasFull custom_alias.data then false
  else if reserved_words.contains (pyLower custom_alias) then false
  else true

/-- `is_custom_alias_available`: no row has the alias as its short code. -/
def is_custom_alias_available (db : DB) (custom_alias : String) : Bool :=
  (db.find? (fun l => l.short_code = custom_alias)).isNone

/-- `generate_short_code`: the random candidate stream is a parameter; the
loop returns the first candidate free in the store.  The source's unbounded
`while True` retry loop is bounded by explicit fuel. -/
def generate_short_code (db : DB) (stream : Nat → String) : Nat → Option String
  | 0 => none
  | fuel + 1 =>
    let short_code := stream 0
    if (db.find? (fun l => l.short_code = short_code)).isNone then some short_code
    else generate_short_code db (fun n => stream (n + 1)) fuel

/-!
### Link services (`services/link_services.py`)
-/

/-- Outcome of a Python call: normal return, a raised `HTTPException`
(status code and detail), or another uncaught exception (its class name). -/
inductive PyResult (α : Type) where
  | ok : α → PyResult α
  | httpError : Nat → String → PyResult α
  | exn : String → PyResult α
deriving DecidableEq

/-- `get_link_by_short_code`: `query(Link).filter(short_code == code).first()`. -/
def get_link_by_short_code (db : DB) (short_code : String) : Option Link :=
  db.find? (fun l => l.short_code = short_code)

/-- `create_link`: choose the short code (truthy custom alias, else the
generated code), build the row and insert it; the store's uniqueness
constraint on `short_code` raises `IntegrityError` at commit when violated;
on success the link is cached for faster redirects.  The generated id and
code (`uuid4`, `generate_short_code`) are parameters. -/
def create_link (now : Int) (db : DB) (r : Option Redis) (link_id gen_code : String)
    (original_url : String) (user_id custom_alias : Option String)
    (expires_at : Option Int) : PyResult (Link × DB × Option Redis) :=
  let short_code := if pyTruthyOpt custom_alias then custom_alias.getD "" else gen_code
  let link : Link :=
    { id := link_id, original_url := original_url, short_code := short_code,
      custom_alias := custom_alias, created_at := some now, expires_at := expires_at,
      last_accessed_at := none, access_count := 0, is_active := true, user_id := user_id }
  if db.any (fun l => l.short_code = short_code) then .exn "IntegrityError"
  else .ok (link, db ++ [link], cache_link now r short_code original_url expires_at)

/-- `update_link`: set the new URL and/or expiry (only non-`None`
arguments), commit, then refresh the cache (delete, re-put). -/
def update_link (now : Int) (db : DB) (r : Option Redis) (link : Link)
    (original_url : Option String) (expires_at : Option Int) : Link × DB × Option Redis :=
  let link2 : Link :=
    { link with
      original_url := original_url.getD link.original_url,
      expires_at := match expires_at with | some e => some e | none => link.expires_at }
  let db2 := db.map (fun l => if l.id = link.id then link2 else l)
  let r1 := delete_cached_link r link.short_code
  (link2, db2, cache_link now r1 link2.short_code link2.original_url link2.expires_at)

/-- `delete_link`: delete the row, then drop the cached URL and the cached
stats snapshot; returns `True`. -/
def delete_link (db : DB) (r : Option Redis) (link : Link) : Bool × DB × Option Redis :=
  (true, db.filter (fun l => l.id ≠ link.id), delete_cached_link r link.short_code)

/-- `get_original_url_for_redirect`: cached URL when truthy; otherwise the
store row, `None` when absent, inactive or expired; a valid store hit is
re-cached with the record's URL and expiry before returning. -/
def get_original_url_for_redirect (now : Int) (db : DB) (r : Option Redis)
    (short_code : String) : Option String × Option Redis :=
  let cached_url := get_cached_link r short_code
  if pyTruthyOpt cached_url then (cached_url, r)
  else
    match get_link_by_short_code db short_code with
    | none => (none, r)
    | some link =>
      if !link.is_active then (none, r)
      else if link.is_expired now then (none, r)
      else (some link.original_url, cache_link now r short_code link.original_url link.expires_at)

/-- `get_link_stats`: the cached snapshot when present and truthy (a parse
failure propagates), else the row's stats dict, which is cached. -/
def get_link_stats (iso : Int → String) (link : Link) (r : Option Redis) :
    PyResult (PyDict × Option Redis) :=
  match get_cached_link_stats r link.short_code with
  | .error => .exn "JSONDecodeError"
  | .ok d =>
    if d ≠ [] then .ok (d, r)
    else
      let stats := link.to_stats_dict iso
      .ok (stats, cache_link_stats r link.short_code stats)
  | .miss =>
    let stats := link.to_stats_dict iso
    .ok (stats, cache_link_stats r link.short_code stats)

/-- The cleanup query condition for expired links:
`expires_at IS NOT NULL AND expires_at < now`. -/
def expiredCond (now : Int) (l : Link) : Bool :=
  match l.expires_at with
  | none => false
  | some e => e < now

/-- The cleanup query condition for unused links:
`last_accessed_at < cutoff OR (last_accessed_at IS NULL AND created_at < cutoff)`
(SQL comparisons with NULL are not satisfied). -/
def unusedCond (cutoff : Int) (l : Link) : Bool :=
  match l.last_accessed_at with
  | some t => t < cutoff
  | none =>
    match l.created_at with
    | some c => c < cutoff
    | none => false

/-- The deletion loop shared by both cleanup sweeps: links are processed in
order; `fails` models the store raising on a given link's deletion, which
propagates immediately (the source has no per-item handler), leaving the
session state as already committed. -/
def cleanupLoop (fails : Link → Bool) :
    List Link → Nat → DB → Option Redis → PyResult Nat × DB × Option Redis
  | [], count, db, r => (.ok count, db, r)
  | l :: rest, count, db, r =>
    if fails l then (.exn "SQLAlchemyError", db, r)
    else
      let s := delete_link db r l
      cleanupLoop fails rest (count + 1) s.2.1 s.2.2

/-- `cleanup_expired_links`: query the expired links, then delete each in
turn, counting; a single deletion failure aborts the loop. -/
def cleanup_expired_links (now : Int) (db : DB) (r : Option Redis) (fails : Link → Bool) :
    PyResult Nat × DB × Option Redis :=
  cleanupLoop fails (db.filter (expiredCond now)) 0 db r

/-- `cleanup_unused_links` with `cutoff = now - days` (in the embedding's
time unit): query the unused links, then delete each in turn. -/
def cleanup_unused_links (cutoff : Int) (db : DB) (r : Option Redis) (fails : Link → Bool) :
    PyResult Nat × DB × Option Redis :=
  cleanupLoop fails (db.filter (unusedCond cutoff)) 0 db r

/-!
### The cleanup job (`services/cleanup_service.py`)
-/

/-- One iteration of `cleanup_job`'s `while True` body: the expired sweep,
then (when enabled) the unused sweep; the surrounding `try/except` catches
and logs any exception, so a cycle always returns normally with the state
as committed at the point of failure. -/
def cleanup_job_cycle (now cutoff : Int) (unusedEnabled : Bool)
    (failsE failsU : Link → Bool) (db : DB) (r : Option Redis) : DB × Option Redis :=
  match cleanup_expired_links now db r failsE with
  | (.ok _, db1, r1) =>
    if unusedEnabled then
      let s := cleanup_unused_links cutoff db1 r1 failsU
      (s.2.1, s.2.2)
    else (db1, r1)
  | (_, db1, r1) => (db1, r1)

/-- `n` consecutive scheduler cycles, with per-cycle failure oracles; the
cycle never propagates an exception, so the recursion always proceeds. -/
def cleanup_scheduler_runs (now cutoff : Int) (unusedEnabled : Bool)
    (failsE failsU : Nat → Link → Bool) :
    Nat → DB × Option Redis → DB × Option Redis
  | 0, s => s
  | n + 1, s =>
    let s1 := cleanup_job_cycle now cutoff unusedEnabled (failsE 0) (failsU 0) s.1 s.2
    cleanup_scheduler_runs now cutoff unusedEnabled
      (fun k => failsE (k + 1)) (fun k => failsU (k + 1)) n s1

/-!
### Controllers (`api/controllers/link_controller.py`)

`validate_url` delegates to the external `validators` library and is a
parameter (`vurl`) of the controller models.
-/

/-- `update_link_info`: 404 when the code is unknown; 403 when the link has
a (truthy) owner and a different authenticated caller, or when the link has
no owner and the caller is absent; 400 when a truthy new URL fails
validation; otherwise the service update. -/
def update_link_info (now : Int) (db : DB) (r : Option Redis) (vurl : String → Bool)
    (short_code : String) (original_url : Option String) (expires_at : Option Int)
    (current_user : Option String) : PyResult (Link × DB × Option Redis) :=
  match get_link_by_short_code db short_code with
  | none => .httpError 404 "Link not found"
  | some link =>
    if pyTruthyOpt link.user_id && current_user.isSome && link.user_id ≠ current_user then
      .httpError 403 "Not authorized to update this link"
    else if !pyTruthyOpt link.user_id && current_user.isNone then
      .httpError 403 "Not authorized to update this link"
    else if (match original_url with | some u => u ≠ "" && !vurl u | none => false) then
      .httpError 400 "Invalid URL format"
    else .ok (update_link now db r link original_url expires_at)

/-- `delete_link_by_short_code`: 404 when the code is unknown; the same
authorization checks as the update path; then the service delete (which
returns `True`, so the 500 branch is unreachable). -/
def delete_link_by_short_code (db : DB) (r : Option Redis) (short_code : String)
    (current_user : Option String) : PyResult (DB × Option Redis) :=
  match get_link_by_short_code db short_code with
  | none => .httpError 404 "Link not found"
  | some link =>
    if pyTruthyOpt link.user_id && current_user.isSome && link.user_id ≠ current_user then
      .httpError 403 "Not authorized to delete this link"
    else if !pyTruthyOpt link.user_id && current_user.isNone then
      .httpError 403 "Not authorized to delete this link"
    else
      let s := delete_link db r link
      .ok (s.2.1, s.2.2)

/-- `create_short_link`: URL validation, then (for a truthy alias) format
validation and the availability pre-check, then the service create.  The
pre-check reads the session at `dbCheck` while the insert commits against
`dbInsert`: a concurrent insert between the two is the race the uniqueness
constraint closes; sequential execution is `dbCheck = dbInsert`. -/
def create_short_link (now : Int) (dbCheck dbInsert : DB) (r : Option Redis)
    (vurl : String → Bool) (original_url : String) (current_user custom_alias : Option String)
    (expires_at : Option Int) (link_id gen_code : String) :
    PyResult (Link × DB × Option Redis) :=
  if !vurl original_url then .httpError 400 "Invalid URL format"
  else if pyTruthyOpt custom_alias then
    let a := custom_alias.getD ""
    if !validate_custom_alias a then .httpError 400 "Invalid custom alias format"
    else if !is_custom_alias_available dbCheck a then
      .httpError 400 "Custom alias already in use"
    else create_link now dbInsert r link_id gen_code original_url current_user custom_alias expires_at
  else create_link now dbInsert r link_id gen_code original_url current_user custom_alias expires_at

/-!
### Auxiliary definitions for the claim statements
-/

/-- Whether a `PyResult` is a normal return. -/
def PyResult.isOk {α : Type} : PyResult α → Bool
  | .ok _ => true
  | _ => false

/-- Whether a `PyResult` is a raised 403 Forbidden. -/
def PyResult.isForbidden {α : Type} : PyResult α → Bool
  | .httpError 403 _ => true
  | _ => false

/-- The condition under which the controllers' authorization checks raise
403: a truthy owner with a different authenticated caller, or no truthy
owner and an absent caller. -/
def authzDenied (link_user_id caller : Option String) : Bool :=
  (pyTruthyOpt link_user_id && caller.isSome && link_user_id ≠ caller) ||
  (!pyTruthyOpt link_user_id && caller.isNone)

/-- A character Python `repr` renders as itself inside the stats string
and `json.loads` reads back unchanged: printable ASCII or tab, newline,
carriage return, and not a quote character. -/
def safeChar (c : Char) : Bool :=
  ((32 ≤ c.toNat && c.toNat ≤ 126) || c.toNat = 9 || c.toNat = 10 || c.toNat = 13)
  && c ≠ squote && c ≠ dquote

/-- A string of safe characters. -/
def safeStr (s : String) : Bool := s.data.all safeChar

/-- A stats value that round-trips through the encoding: an integer, or a
string of safe characters. -/
def safeVal : PyVal → Bool
  | .vnone => false
  | .vint _ => true
  | .vstr s => safeStr s

/-- A stats dictionary with safe keys and round-tripping values. -/
def safeDict (d : PyDict) : Bool := d.all (fun kv => safeStr kv.1 && safeVal kv.2)

/-- The claim's own positive condition, stated from the spec's words: every
value is an integer or a string free of quote characters. -/
def valuesIntOrQuoteFreeStr (d : PyDict) : Bool :=
  d.all (fun kv =>
    match kv.2 with
    | .vint _ => true
    | .vstr s => !s.data.contains squote && !s.data.contains dquote
    | .vnone => false)

/-- The `repr` escaping restricted to safe characters (where the quote and
`\xNN` branches are unreachable). -/
def escSafeChar (c : Char) : List Char :=
  if c = bslash then [bslash, bslash]
  else if c.toNat = 9 then [bslash, 't']
  else if c.toNat = 10 then [bslash, 'n']
  else if c.toNat = 13 then [bslash, 'r']
  else [c]

/-- A stats value containing single quotes (the Python literal
`"x', 'b': 'y"`): `repr` quote-branching renders it with double-quote
delimiters and leaves the inner single quotes unescaped, so the
single-to-double quote substitution turns the rendering into valid JSON
for a different dictionary. -/
def quoteyVal : String :=
  String.mk ['x', squote, ',', ' ', squote, 'b', squote, ':', ' ', squote, 'y']

/-- A character list that does not begin with a decimal digit. -/
def notDigitHead : List Char → Prop
  | [] => True
  | c :: _ => isDigitChar c = false

/-- A concrete owned link used in concrete instances. -/
def ownedLink : Link :=
  { id := "L1", original_url := "https://example.com/a", short_code := "abc123",
    custom_alias := none, created_at := some 0, expires_at := none,
    last_accessed_at := none, access_count := 0, is_active := true, user_id := some "u1" }

/-- A concrete anonymous link used in concrete instances. -/
def anonLink : Link :=
  { ownedLink with id := "L2", short_code := "anon42", user_id := none }

/-- A concrete link occupying the alias `mytest`, used for the alias-race
instance. -/
def raceLink : Link :=
  { ownedLink with id := "L3", short_code := "mytest", custom_alias := some "mytest" }

/-- A concrete expired link (expiry strictly before time 0). -/
def expiredLink1 : Link :=
  { ownedLink with id := "E1", short_code := "exp1", expires_at := some (-5), user_id := none }

/-- A second concrete expired link. -/
def expiredLink2 : Link :=
  { expiredLink1 with id := "E2", short_code := "exp2" }

/-!
### General lemmas about the embedding
-/

/-- Characters are determined by their code points. -/
theorem char_eq_iff_toNat {a b : Char} : a = b ↔ a.toNat = b.toNat := by
  constructor
  · intro h; rw [h]
  · intro h
    have := congrArg Char.ofNat h
    rwa [Char.ofNat_toNat, Char.ofNat_toNat] at this

/-- Reading a key just set returns the stored value. -/
theorem redisGet_set_self (r : Redis) (k v : String) (t : Option Int) :
    redisGet (redisSet r k v t) k = some v := by
  simp [redisGet, redisSet, List.find?]

/-- Reading a key just deleted returns nothing. -/
theorem redisGet_delete_self (r : Redis) (k : String) : redisGet (redisDelete r k) k = none := by
  have h : List.find? (fun e => decide (e.1 = k)) (List.filter (fun e => decide (e.1 ≠ k)) r)
      = none := by
    rw [List.find?_eq_none]
    intro x hx
    have := (List.mem_filter.mp hx).2
    simpa using this
  simp [redisGet, redisDelete, h]

/-- Deleting another key preserves the absence of a key. -/
theorem redisGet_delete_none (r : Redis) (k k2 : String) (h : redisGet r k = none) :
    redisGet (redisDelete r k2) k = none := by
  have hf : List.find? (fun e => decide (e.1 = k)) r = none := by
    cases hx : List.find? (fun e => decide (e.1 = k)) r with
    | none => rfl
    | some e => rw [redisGet, hx] at h; simp at h
  have h2 : List.find? (fun e => decide (e.1 = k)) (List.filter (fun e => decide (e.1 ≠ k2)) r)
      = none := by
    rw [List.find?_eq_none]
    rw [List.find?_eq_none] at hf
    intro x hx
    exact hf x (List.mem_filter.mp hx).1
  unfold redisGet redisDelete
  rw [h2]
  rfl

/-- A `find?` over an append when the first part has no match. -/
theorem find?_append_of_none {α : Type} {p : α → Bool} {l1 l2 : List α}
    (h : l1.find? p = none) : (l1 ++ l2).find? p = l2.find? p := by
  rw [List.find?_append, h, Option.none_or]


/-- Resolution behaviour on a cache hit with a truthy URL. -/
theorem resolve_hit (now : Int) (db : DB) (r : Option Redis) (code u : String)
    (h : get_cached_link r code = some u) (hu : u ≠ "") :
    get_original_url_for_redirect now db r code = (some u, r) := by
  simp only [get_original_url_for_redirect, h]
  rw [if_pos (by simp [pyTruthyOpt, hu])]

/-- Resolution behaviour on a cache miss when the store has no row. -/
theorem resolve_miss_absent (now : Int) (db : DB) (r : Option Redis) (code : String)
    (hmiss : pyTruthyOpt (get_cached_link r code) = false)
    (habs : get_link_by_short_code db code = none) :
    get_original_url_for_redirect now db r code = (none, r) := by
  simp only [get_original_url_for_redirect, hmiss, habs]
  simp

/-- Resolution behaviour on a cache miss when the store row is inactive. -/
theorem resolve_miss_inactive (now : Int) (db : DB) (r : Option Redis) (code : String)
    (link : Link) (hmiss : pyTruthyOpt (get_cached_link r code) = false)
    (hfind : get_link_by_short_code db code = some link)
    (h : link.is_active = false) :
    get_original_url_for_redirect now db r code = (none, r) := by
  simp only [get_original_url_for_redirect, hmiss, hfind]
  simp [h]

/-- Resolution behaviour on a cache miss when the store row is expired. -/
theorem resolve_miss_expired (now : Int) (db : DB) (r : Option Redis) (code : String)
    (link : Link) (hmiss : pyTruthyOpt (get_cached_link r code) = false)
    (hfind : get_link_by_short_code db code = some link)
    (h : link.is_expired now = true) :
    get_original_url_for_redirect now db r code = (none, r) := by
  simp only [get_original_url_for_redirect, hmiss, hfind]
  by_cases ha : link.is_active
  · simp [ha, h]
  · simp [ha]

/-- Resolution behaviour on a cache miss when the store row is valid: the
row's URL is returned and the cache is repopulated with that URL and the
row's expiry. -/
theorem resolve_miss_valid (now : Int) (db : DB) (r : Option Redis) (code : String)
    (link : Link) (hmiss : pyTruthyOpt (get_cached_link r code) = false)
    (hfind : get_link_by_short_code db code = some link)
    (hact : link.is_active = true) (hexp : link.is_expired now = false) :
    get_original_url_for_redirect now db r code =
      (some link.original_url, cache_link now r code link.original_url link.expires_at) := by
  simp only [get_original_url_for_redirect, hmiss, hfind]
  simp [hact, hexp]

/-!
### C9: custom-alias validation
-/

/-- Every character in the alias class, as the expanded disjunction. -/
theorem aliasChar_all_iff (l : List Char) :
    (l.all isAliasChar = true) ↔
      ∀ c ∈ l,
        ('a' ≤ c ∧ c ≤ 'z') ∨ ('A' ≤ c ∧ c ≤ 'Z') ∨ ('0' ≤ c ∧ c ≤ '9') ∨
          c = '_' ∨ c = '-' := by
  rw [List.all_eq_true]
  refine forall_congr' fun c => forall_congr' fun _ => ?_
  simp only [isAliasChar, Bool.or_eq_true, Bool.and_eq_true, decide_eq_true_eq]
  tauto

/-- C9 counterexample: the claimed characterization fails at the alias
`"abc\n"`: the regex `^[a-zA-Z0-9_-]+$` also matches with exactly one
trailing newline (Python's `$` matches just before a final newline), so
`validate_custom_alias` returns true although not every character of the
alias is in `[a-zA-Z0-9_-]`. -/
theorem alias_trailing_newline_counterexample :
    ¬ (validate_custom_alias "abc\n" = true ↔
        (3 ≤ ("abc\n").length ∧ ("abc\n").length ≤ 20 ∧
          (∀ c ∈ ("abc\n").data,
            ('a' ≤ c ∧ c ≤ 'z') ∨ ('A' ≤ c ∧ c ≤ 'Z') ∨ ('0' ≤ c ∧ c ≤ '9') ∨
              c = '_' ∨ c = '-') ∧
          ∀ w ∈ reserved_words, pyLower "abc\n" ≠ w)) := by
  decide

/-- C9 amended: `validate_custom_alias` returns true exactly when the
length is 3–20, either every character is in `[a-zA-Z0-9_-]` or the last
character is a newline and every character before it is in the class
(the regex's trailing-newline acceptance), and the lowercased alias is
not a reserved word; every letter-case variant of a reserved word is
still rejected. -/
theorem validate_custom_alias_amended (a : String) :
    (validate_custom_alias a = true ↔
      (3 ≤ a.length ∧ a.length ≤ 20 ∧
        ((∀ c ∈ a.data,
            ('a' ≤ c ∧ c ≤ 'z') ∨ ('A' ≤ c ∧ c ≤ 'Z') ∨ ('0' ≤ c ∧ c ≤ '9') ∨
              c = '_' ∨ c = '-') ∨
          (a.data.getLast? = some '\n' ∧
            ∀ c ∈ a.data.dropLast,
              ('a' ≤ c ∧ c ≤ 'z') ∨ ('A' ≤ c ∧ c ≤ 'Z') ∨ ('0' ≤ c ∧ c ≤ '9') ∨
                c = '_' ∨ c = '-')) ∧
        ∀ w ∈ reserved_words, pyLower a ≠ w)) ∧
    (∀ w ∈ reserved_words, pyLower a = w → validate_custom_alias a = false) := by
  have hne : ∀ (l : List Char), (!l.isEmpty) = true ↔ l ≠ [] := by
    intro l
    cases l <;> simp
  have hres : (reserved_words.contains (pyLower a) = true) ↔ pyLower a ∈ reserved_words := by
    show (List.elem (pyLower a) reserved_words = true) ↔ _
    exact List.elem_iff
  have hlen : a.data.length = a.length := rfl
  have hmain : validate_custom_alias a = true ↔
      ((3 ≤ a.length && a.length ≤ 20) = true ∧ reMatchAliasFull a.data = true ∧
        reserved_words.contains (pyLower a) = false) := by
    rw [validate_custom_alias]
    rcases hb1 : (3 ≤ a.length && a.length ≤ 20) with _ | _ <;>
      rcases hb2 : reMatchAliasFull a.data with _ | _ <;>
        rcases hb3 : reserved_words.contains (pyLower a) with _ | _ <;>
          simp [hb1, hb2, hb3]
  have hregex : reMatchAliasFull a.data = true ↔
      ((a.data ≠ [] ∧ a.data.all isAliasChar = true) ∨
        (a.data.getLast? = some '\n' ∧ a.data.dropLast ≠ [] ∧
          a.data.dropLast.all isAliasChar = true)) := by
    rw [reMatchAliasFull]
    simp only [Bool.or_eq_true, Bool.and_eq_true, beq_iff_eq, hne, and_assoc]
  constructor
  · rw [hmain, hregex]
    simp only [Bool.and_eq_true, decide_eq_true_eq, aliasChar_all_iff]
    constructor
    · rintro ⟨⟨hl1, hl2⟩, hrx, hnr⟩
      refine ⟨hl1, hl2, ?_, fun w hw heq => ?_⟩
      · rcases hrx with ⟨_, hall⟩ | ⟨hlast, _, hall⟩
        · exact Or.inl hall
        · exact Or.inr ⟨hlast, hall⟩
      · have : reserved_words.contains (pyLower a) = true := hres.mpr (heq ▸ hw)
        rw [hnr] at this
        exact Bool.false_ne_true this
    · rintro ⟨hl1, hl2, hrx, hnr⟩
      have hdne : a.data ≠ [] := by
        intro h0
        have h00 : a.length = 0 := by rw [← hlen, h0]; rfl
        rw [h00] at hl1
        exact absurd hl1 (by decide)
      refine ⟨⟨hl1, hl2⟩, ?_, ?_⟩
      · rcases hrx with hall | ⟨hlast, hall⟩
        · exact Or.inl ⟨hdne, hall⟩
        · refine Or.inr ⟨hlast, ?_, hall⟩
          intro h0
          have h01 : a.data.dropLast.length = 0 := by rw [h0]; rfl
          rw [List.length_dropLast, hlen] at h01
          omega
      · rcases hb3 : reserved_words.contains (pyLower a) with _ | _
        · rfl
        · exact absurd rfl (hnr _ (hres.mp hb3))
  · intro w hw heq
    cases hv : validate_custom_alias a with
    | false => rfl
    | true =>
      have := (hmain.mp hv).2.2
      rw [hres.mpr (heq ▸ hw)] at this
      exact Bool.noConfusion this

/-!
### C5: put with a past expiry is a no-op
-/

/-- C5: when `expires_at` is already in the past, `cache_link` leaves the
cache state entirely unchanged (and stays a no-op without a client). -/
theorem put_past_expiry_noop (now e : Int) (r : Redis) (short_code url : String)
    (h : e < now) :
    cache_link now (some r) short_code url (some e) = some r ∧
    cache_link now none short_code url (some e) = none := by
  refine ⟨?_, rfl⟩
  simp only [cache_link]
  rw [if_pos (by omega)]

/-- Concrete instance of `put_past_expiry_noop`. -/
theorem put_past_expiry_noop_witness :
    cache_link 10 (some []) "abc" "https://example.com/a" (some 3) = some [] ∧
    cache_link 10 none "abc" "https://example.com/a" (some 3) = none :=
  put_past_expiry_noop 10 3 [] "abc" "https://example.com/a" (by decide)

/-!
### C6: cache unavailability fails open
-/

/-- C6: with the client unavailable every cache operation is a no-op or an
explicit miss, no error is raised, and resolution falls through to the
store: it succeeds exactly on an active, unexpired store record and keeps
the cache state absent. -/
theorem cache_unavailable_fail_open (now : Int) (short_code url u : String) (e : Option Int)
    (db : DB) (d : PyDict) :
    cache_link now none short_code url e = none ∧
    get_cached_link none short_code = none ∧
    delete_cached_link none short_code = none ∧
    cache_link_stats none short_code d = none ∧
    get_cached_link_stats none short_code = .miss ∧
    increment_link_access none short_code = none ∧
    (get_original_url_for_redirect now db none short_code).2 = none ∧
    ((get_original_url_for_redirect now db none short_code).1 = some u ↔
      ∃ link, get_link_by_short_code db short_code = some link ∧ link.is_active = true ∧
        link.is_expired now = false ∧ u = link.original_url) := by
  have hmiss : pyTruthyOpt (get_cached_link none short_code) = false := rfl
  refine ⟨rfl, rfl, rfl, rfl, rfl, rfl, ?_, ?_⟩
  · cases hfind : get_link_by_short_code db short_code with
    | none => rw [resolve_miss_absent now db none short_code hmiss hfind]
    | some link =>
      by_cases hact : link.is_active = true
      · by_cases hexp : link.is_expired now = true
        · rw [resolve_miss_expired now db none short_code link hmiss hfind hexp]
        · rw [resolve_miss_valid now db none short_code link hmiss hfind hact
            (Bool.not_eq_true _ ▸ hexp)]
          rfl
      · rw [resolve_miss_inactive now db none short_code link hmiss hfind
          (Bool.not_eq_true _ ▸ hact)]
  · constructor
    · intro hr
      cases hfind : get_link_by_short_code db short_code with
      | none =>
        rw [resolve_miss_absent now db none short_code hmiss hfind] at hr
        exact absurd hr (by simp)
      | some link =>
        by_cases hact : link.is_active = true
        · by_cases hexp : link.is_expired now = true
          · rw [resolve_miss_expired now db none short_code link hmiss hfind hexp] at hr
            exact absurd hr (by simp)
          · rw [resolve_miss_valid now db none short_code link hmiss hfind hact
              (Bool.not_eq_true _ ▸ hexp)] at hr
            exact ⟨link, rfl, hact, Bool.not_eq_true _ ▸ hexp, by simpa using hr.symm⟩
        · rw [resolve_miss_inactive now db none short_code link hmiss hfind
            (Bool.not_eq_true _ ▸ hact)] at hr
          exact absurd hr (by simp)
    · rintro ⟨link, hfind, hact, hexp, hu⟩
      rw [resolve_miss_valid now db none short_code link hmiss hfind hact hexp, hu]

/-!
### C1: authorization for update and delete
-/

/-- C1 counterexample: the claim demands Forbidden for an absent caller on
an owned link and for an authenticated caller on an anonymous link, and
success for an absent caller on an anonymous link; the code does the
opposite in all three situations. -/
theorem authz_ownership_counterexample :
    (update_link_info 0 [ownedLink] (some []) (fun _ => true) "abc123" none none none).isOk
      = true ∧
    (update_link_info 0 [ownedLink] (some []) (fun _ => true) "abc123" none none none).isForbidden
      = false ∧
    (delete_link_by_short_code [ownedLink] (some []) "abc123" none).isOk = true ∧
    (update_link_info 0 [anonLink] (some []) (fun _ => true) "anon42" none none
      (some "u2")).isOk = true ∧
    (update_link_info 0 [anonLink] (some []) (fun _ => true) "anon42" none none
      none).isForbidden = true ∧
    (delete_link_by_short_code [anonLink] (some []) "anon42" none).isForbidden = true := by
  refine ⟨rfl, rfl, rfl, rfl, rfl, rfl⟩

/-- C1 amended: for a stored link, update and delete raise Forbidden
exactly under `authzDenied` (owner present with a different authenticated
caller, or no owner and an absent caller); otherwise delete succeeds and
update succeeds whenever the new URL passes the truthiness/validation
check. -/
theorem authz_ownership_amended (now : Int) (db : DB) (r : Option Redis)
    (vurl : String → Bool) (code : String) (url2 : Option String) (exp2 : Option Int)
    (caller : Option String) (link : Link)
    (hfind : get_link_by_short_code db code = some link) :
    ((update_link_info now db r vurl code url2 exp2 caller).isForbidden
        = authzDenied link.user_id caller) ∧
    ((delete_link_by_short_code db r code caller).isForbidden
        = authzDenied link.user_id caller) ∧
    (authzDenied link.user_id caller = false →
      (delete_link_by_short_code db r code caller).isOk = true ∧
      ((match url2 with | some u2 => u2 ≠ "" && !vurl u2 | none => false) = false →
        (update_link_info now db r vurl code url2 exp2 caller).isOk = true)) := by
  rcases h1 : (pyTruthyOpt link.user_id && caller.isSome && decide (link.user_id ≠ caller))
      with _ | _ <;>
    rcases h2 : (!pyTruthyOpt link.user_id && caller.isNone) with _ | _ <;>
      simp only [update_link_info, delete_link_by_short_code, hfind, authzDenied, h1, h2,
        if_true, if_false, Bool.false_or, Bool.or_false, Bool.true_or, Bool.or_true,
        Bool.false_eq_true, PyResult.isForbidden, PyResult.isOk]
  · refine ⟨?_, trivial, fun _ => ⟨trivial, fun hurl => ?_⟩⟩
    · split_ifs <;> rfl
    · rw [if_neg (by rw [hurl]; exact Bool.false_ne_true)]
  · exact ⟨trivial, trivial, fun h => Bool.noConfusion h⟩
  · exact ⟨trivial, trivial, fun h => Bool.noConfusion h⟩
  · exact ⟨trivial, trivial, fun h => Bool.noConfusion h⟩

/-- Concrete instance of `authz_ownership_amended`: the owner may delete
their own link. -/
theorem authz_ownership_amended_witness :
    (delete_link_by_short_code [ownedLink] (some []) "abc123" (some "u1")).isOk = true := by
  have h := authz_ownership_amended 0 [ownedLink] (some []) (fun _ => true) "abc123"
    none none (some "u1") ownedLink rfl
  exact (h.2.2 (by decide)).1

/-- A `find?`-free reading of an empty `any` over short codes. -/
theorem get_link_none_of_any_false (db : DB) (code : String)
    (h : db.any (fun l => l.short_code = code) = false) :
    get_link_by_short_code db code = none := by
  rw [get_link_by_short_code, List.find?_eq_none]
  intro x hx hpx
  have : db.any (fun l => decide (l.short_code = code)) = true :=
    List.any_eq_true.mpr ⟨x, hx, hpx⟩
  rw [h] at this
  exact Bool.noConfusion this

/-- Expiry in terms of the stored timestamp. -/
theorem is_expired_eq_true_iff (now : Int) (l : Link) :
    l.is_expired now = true ↔ ∃ t, l.expires_at = some t ∧ t < now := by
  rw [Link.is_expired]
  cases h : l.expires_at with
  | none => simp
  | some t => simp [gt_iff_lt]

/-- Non-expiry in terms of the stored timestamp. -/
theorem is_expired_eq_false_iff (now : Int) (l : Link) :
    l.is_expired now = false ↔ ∀ t, l.expires_at = some t → now ≤ t := by
  rw [Link.is_expired]
  cases h : l.expires_at with
  | none => simp
  | some t =>
    simp only [decide_eq_false_iff_not, gt_iff_lt, not_lt]
    constructor
    · intro hle t2 ht2
      cases ht2
      exact hle
    · intro hall
      exact hall t rfl

/-!
### C2: create then resolve round-trips the URL
-/

/-- The resolve step after a fresh insert-and-cache of a link. -/
theorem resolve_after_insert (now : Int) (db : DB) (r : Option Redis) (code url : String)
    (e : Option Int) (L : Link)
    (hany : db.any (fun l => l.short_code = code) = false)
    (he : match e with | none => True | some t => now < t)
    (hLcode : L.short_code = code) (hLurl : L.original_url = url)
    (hLexp : L.expires_at = e) (hLact : L.is_active = true) :
    (get_original_url_for_redirect now (db ++ [L]) (cache_link now r code url e) code).1
      = some url := by
  have hfind : get_link_by_short_code (db ++ [L]) code = some L := by
    rw [get_link_by_short_code, find?_append_of_none (get_link_none_of_any_false db code hany)]
    simp [List.find?, hLcode]
  have hexp : L.is_expired now = false := by
    rw [is_expired_eq_false_iff]
    intro t ht
    rw [hLexp] at ht
    cases e with
    | none => exact Option.noConfusion ht
    | some t2 =>
      have he2 : now < t2 := he
      cases ht
      omega
  have hcases : get_cached_link (cache_link now r code url e) code = some url ∨
      get_cached_link (cache_link now r code url e) code = none := by
    cases r with
    | none => right; rfl
    | some redis =>
      cases e with
      | none => left; exact redisGet_set_self redis (linkKey code) url none
      | some t =>
        have he2 : now < t := he
        left
        simp only [cache_link]
        rw [if_neg (by omega)]
        exact redisGet_set_self redis (linkKey code) url (some (t - now))
  rcases hcases with hc | hc
  · by_cases hu : url = ""
    · have hmiss : pyTruthyOpt (get_cached_link (cache_link now r code url e) code) = false := by
        rw [hc]
        simp [pyTruthyOpt, hu]
      rw [resolve_miss_valid now (db ++ [L]) (cache_link now r code url e) code L hmiss hfind
        hLact hexp]
      simp [hLurl]
    · rw [resolve_hit now (db ++ [L]) (cache_link now r code url e) code url hc hu]
  · have hmiss : pyTruthyOpt (get_cached_link (cache_link now r code url e) code) = false := by
      rw [hc]
      rfl
    rw [resolve_miss_valid now (db ++ [L]) (cache_link now r code url e) code L hmiss hfind
      hLact hexp]
    simp [hLurl]

/-- C2: a successful create (valid URL, expiry absent or strictly in the
future) followed immediately by a resolve of the produced short code
returns exactly the URL passed to create. -/
theorem create_then_resolve (now : Int) (db : DB) (r : Option Redis) (vurl : String → Bool)
    (url : String) (uid calias : Option String) (e : Option Int) (lid gen : String)
    (link : Link) (db2 : DB) (r2 : Option Redis)
    (hv : vurl url = true)
    (he : match e with | none => True | some t => now < t)
    (hok : create_link now db r lid gen url uid calias e = .ok (link, db2, r2)) :
    (get_original_url_for_redirect now db2 r2 link.short_code).1 = some url := by
  simp only [create_link] at hok
  split at hok
  · split at hok
    · exact PyResult.noConfusion hok
    · next hany =>
      rw [PyResult.ok.injEq, Prod.mk.injEq, Prod.mk.injEq] at hok
      obtain ⟨hl, hdb, hr⟩ := hok
      subst hl hdb hr
      exact resolve_after_insert now db r _ url e _ (Bool.not_eq_true _ ▸ hany) he rfl rfl rfl rfl
  · split at hok
    · exact PyResult.noConfusion hok
    · next hany =>
      rw [PyResult.ok.injEq, Prod.mk.injEq, Prod.mk.injEq] at hok
      obtain ⟨hl, hdb, hr⟩ := hok
      subst hl hdb hr
      exact resolve_after_insert now db r _ url e _ (Bool.not_eq_true _ ▸ hany) he rfl rfl rfl rfl

/-- Concrete instance of `create_then_resolve`: an aliased create with a
future expiry resolves to the created URL. -/
theorem create_then_resolve_witness :
    (get_original_url_for_redirect 100
        [{ id := "id1", original_url := "https://x.io/a", short_code := "myalias",
           custom_alias := some "myalias", created_at := some 100, expires_at := some 200,
           last_accessed_at := none, access_count := 0, is_active := true, user_id := none }]
        (some [(linkKey "myalias", ⟨"https://x.io/a", some 100⟩)]) "myalias").1
      = some "https://x.io/a" := by
  have h := create_then_resolve 100 [] (some []) (fun _ => true) "https://x.io/a" none
    (some "myalias") (some 200) "id1" "g1"
    { id := "id1", original_url := "https://x.io/a", short_code := "myalias",
      custom_alias := some "myalias", created_at := some 100, expires_at := some 200,
      last_accessed_at := none, access_count := 0, is_active := true, user_id := none }
    [{ id := "id1", original_url := "https://x.io/a", short_code := "myalias",
       custom_alias := some "myalias", created_at := some 100, expires_at := some 200,
       last_accessed_at := none, access_count := 0, is_active := true, user_id := none }]
    (some [(linkKey "myalias", ⟨"https://x.io/a", some 100⟩)]) rfl (by decide) rfl
  exact h

/-!
### C3: resolution on a cache miss
-/

/-- C3: on a cache miss, resolution is NotFound (with the cache state left
alone) exactly when the store row is absent, inactive, or has a non-null
expiry in the past; on every other store row it returns the row's URL and
the new cache state is the put of that URL with the row's expiry. -/
theorem resolve_cache_miss_spec (now : Int) (db : DB) (r : Option Redis) (code : String)
    (hmiss : pyTruthyOpt (get_cached_link r code) = false) :
    (get_original_url_for_redirect now db r code = (none, r) ↔
      (match get_link_by_short_code db code with
       | none => True
       | some link => link.is_active = false ∨ ∃ t, link.expires_at = some t ∧ t < now)) ∧
    (∀ link, get_link_by_short_code db code = some link → link.is_active = true →
      (∀ t, link.expires_at = some t → now ≤ t) →
      get_original_url_for_redirect now db r code =
        (some link.original_url, cache_link now r code link.original_url link.expires_at)) := by
  constructor
  · cases hfind : get_link_by_short_code db code with
    | none =>
      simp only [hfind]
      exact iff_of_true (resolve_miss_absent now db r code hmiss hfind) trivial
    | some link =>
      simp only [hfind]
      by_cases hact : link.is_active = true
      · by_cases hexp : link.is_expired now = true
        · refine iff_of_true (resolve_miss_expired now db r code link hmiss hfind hexp) ?_
          exact Or.inr ((is_expired_eq_true_iff now link).mp hexp)
        · rw [resolve_miss_valid now db r code link hmiss hfind hact (Bool.not_eq_true _ ▸ hexp)]
          constructor
          · intro hcontra
            exact absurd (congrArg Prod.fst hcontra) (by simp)
          · rintro (hf | ⟨t, ht, hlt⟩)
            · rw [hact] at hf
              exact Bool.noConfusion hf
            · exact absurd ((is_expired_eq_true_iff now link).mpr ⟨t, ht, hlt⟩) hexp
      · refine iff_of_true
          (resolve_miss_inactive now db r code link hmiss hfind (Bool.not_eq_true _ ▸ hact)) ?_
        exact Or.inl (Bool.not_eq_true _ ▸ hact)
  · intro link hfind hact hok
    exact resolve_miss_valid now db r code link hmiss hfind hact
      ((is_expired_eq_false_iff now link).mpr hok)

/-- Concrete instance of `resolve_cache_miss_spec`: an empty cache and a
store row expired in the past yield NotFound. -/
theorem resolve_cache_miss_spec_witness :
    get_original_url_for_redirect 0 [expiredLink1] (some []) "exp1" = (none, some []) := by
  have h := (resolve_cache_miss_spec 0 [expiredLink1] (some []) "exp1" rfl).1
  exact h.mpr (by right; exact ⟨-5, rfl, by decide⟩)

/-!
### C4: delete then resolve is NotFound, cache invalidated synchronously
-/

/-- C4: deleting an existing link succeeds, synchronously removes both the
cached URL entry and the cached statistics snapshot, and every subsequent
resolve of its short code is NotFound with no stale cached URL. -/
theorem delete_then_resolve (db : DB) (r : Option Redis) (link : Link)
    (hmem : link ∈ db)
    (huniq : ∀ l ∈ db, l.short_code = link.short_code → l.id = link.id) :
    (delete_link db r link).1 = true ∧
    get_link_by_short_code (delete_link db r link).2.1 link.short_code = none ∧
    get_cached_link (delete_link db r link).2.2 link.short_code = none ∧
    get_cached_link_stats (delete_link db r link).2.2 link.short_code = .miss ∧
    ∀ now, get_original_url_for_redirect now (delete_link db r link).2.1
        (delete_link db r link).2.2 link.short_code
      = (none, (delete_link db r link).2.2) := by
  have hdb2 : get_link_by_short_code (delete_link db r link).2.1 link.short_code = none := by
    rw [get_link_by_short_code, List.find?_eq_none]
    intro x hx hpx
    have hxf := List.mem_filter.mp hx
    have hid : x.id = link.id := huniq x hxf.1 (by simpa using hpx)
    have := hxf.2
    rw [hid] at this
    simp at this
  have hcache : get_cached_link (delete_link db r link).2.2 link.short_code = none := by
    cases r with
    | none => rfl
    | some redis =>
      show redisGet (redisDelete (redisDelete redis (linkKey link.short_code))
        (statsKey link.short_code)) (linkKey link.short_code) = none
      exact redisGet_delete_none _ _ _ (redisGet_delete_self redis (linkKey link.short_code))
  have hstats : get_cached_link_stats (delete_link db r link).2.2 link.short_code = .miss := by
    cases r with
    | none => rfl
    | some redis =>
      show get_cached_link_stats (some (redisDelete (redisDelete redis
        (linkKey link.short_code)) (statsKey link.short_code))) link.short_code = .miss
      rw [get_cached_link_stats, redisGet_delete_self]
  refine ⟨rfl, hdb2, hcache, hstats, fun now => ?_⟩
  exact resolve_miss_absent now _ _ _ (by rw [hcache]; rfl) hdb2

/-- Concrete instance of `delete_then_resolve`. -/
theorem delete_then_resolve_witness :
    get_original_url_for_redirect 0 (delete_link [ownedLink]
        (some [(linkKey "abc123", ⟨"https://example.com/a", none⟩)]) ownedLink).2.1
      (delete_link [ownedLink]
        (some [(linkKey "abc123", ⟨"https://example.com/a", none⟩)]) ownedLink).2.2 "abc123"
    = (none, (delete_link [ownedLink]
        (some [(linkKey "abc123", ⟨"https://example.com/a", none⟩)]) ownedLink).2.2) := by
  have h := delete_then_resolve [ownedLink]
    (some [(linkKey "abc123", ⟨"https://example.com/a", none⟩)]) ownedLink
    (by decide) (by decide)
  exact h.2.2.2.2 0

/-!
### C7: duplicate custom alias
-/

/-- C7 counterexample: when the availability pre-check passes (the alias is
free at check time) but a concurrent insert occupies it before commit, the
uniqueness violation surfaces as an uncaught `IntegrityError`, not as the
"Custom alias already in use" client error the claim requires. -/
theorem alias_race_counterexample :
    create_short_link 0 [] [raceLink] (some []) (fun _ => true) "https://example.com/second"
        none (some "mytest") none "id2" "gen2" = .exn "IntegrityError" ∧
    create_short_link 0 [] [raceLink] (some []) (fun _ => true) "https://example.com/second"
        none (some "mytest") none "id2" "gen2"
      ≠ .httpError 400 "Custom alias already in use" := by
  have h : create_short_link 0 [] [raceLink] (some []) (fun _ => true)
      "https://example.com/second" none (some "mytest") none "id2" "gen2"
      = .exn "IntegrityError" := rfl
  refine ⟨h, ?_⟩
  rw [h]
  exact fun hc => PyResult.noConfusion hc

/-- C7 amended: a sequential duplicate alias is rejected by the pre-check
with the 400 "Custom alias already in use" client error; but when the
pre-check passes and the insert itself hits the uniqueness constraint (the
race), the failure propagates as a generic `IntegrityError`. -/
theorem alias_conflict_amended (now : Int) (db dbIns : DB) (r : Option Redis)
    (vurl : String → Bool) (url auf : String) (caller : Option String)
    (e : Option Int) (lid gen : String)
    (hv : vurl url = true) (ha : validate_custom_alias auf = true) :
    (is_custom_alias_available db auf = false →
      create_short_link now db db r vurl url caller (some auf) e lid gen =
        .httpError 400 "Custom alias already in use") ∧
    (is_custom_alias_available db auf = true →
      dbIns.any (fun l => l.short_code = auf) = true →
      create_short_link now db dbIns r vurl url caller (some auf) e lid gen =
        .exn "IntegrityError") := by
  have hne : auf ≠ "" := by
    intro h0
    rw [h0] at ha
    exact Bool.noConfusion ha
  have htruthy : pyTruthyOpt (some auf) = true := by simp [pyTruthyOpt, hne]
  constructor
  · intro hav
    rw [create_short_link, if_neg (by rw [hv]; simp), if_pos htruthy]
    rw [show (some auf).getD "" = auf from rfl]
    rw [if_neg (by rw [ha]; simp), if_pos (by rw [hav]; rfl)]
  · intro hav hdup
    rw [create_short_link, if_neg (by rw [hv]; simp), if_pos htruthy]
    rw [show (some auf).getD "" = auf from rfl]
    rw [if_neg (by rw [ha]; simp), if_neg (by rw [hav]; simp)]
    rw [create_link]
    rw [if_pos (by rw [if_pos htruthy]; exact hdup)]

/-- Concrete instance of `alias_conflict_amended`: the sequential duplicate
gets the client error, the raced duplicate the generic error. -/
theorem alias_conflict_amended_witness :
    create_short_link 0 [raceLink] [raceLink] (some []) (fun _ => true)
        "https://example.com/second" none (some "mytest") none "id2" "gen2" =
      .httpError 400 "Custom alias already in use" ∧
    create_short_link 0 [] [raceLink] (some []) (fun _ => true)
        "https://example.com/x" none (some "mytest") none "id3" "gen3" =
      .exn "IntegrityError" := by
  constructor
  · exact (alias_conflict_amended 0 [raceLink] [raceLink] (some []) (fun _ => true)
      "https://example.com/second" "mytest" none none "id2" "gen2" rfl (by decide)).1
      (by decide)
  · exact (alias_conflict_amended 0 [] [raceLink] (some []) (fun _ => true)
      "https://example.com/x" "mytest" none none "id3" "gen3" rfl (by decide)).2
      (by decide) (by decide)

/-!
### C8: cleanup failure behaviour
-/

/-- A cleanup loop with no failing deletion counts every listed link and
leaves the store with each listed id removed. -/
theorem cleanupLoop_ok (fails : Link → Bool) :
    ∀ (L : List Link) (count : Nat) (db : DB) (r : Option Redis),
      (∀ l ∈ L, fails l = false) →
      (cleanupLoop fails L count db r).1 = .ok (count + L.length) ∧
      (cleanupLoop fails L count db r).2.1 =
        L.foldl (fun d l => d.filter (fun x => x.id ≠ l.id)) db := by
  intro L
  induction L with
  | nil =>
    intro count db r _
    simp [cleanupLoop]
  | cons l rest ih =>
    intro count db r h
    have hl : fails l = false := h l (List.mem_cons_self l rest)
    rw [cleanupLoop, if_neg (by rw [hl]; exact Bool.false_ne_true)]
    simp only [delete_link]
    have := ih (count + 1) (db.filter (fun x => x.id ≠ l.id))
      (delete_cached_link r l.short_code) (fun x hx => h x (List.mem_cons_of_mem l hx))
    refine ⟨?_, this.2⟩
    rw [this.1]
    congr 1
    simp only [List.length_cons]
    omega

/-- Membership after folding deletions-by-id over a list of links. -/
theorem mem_foldl_delete :
    ∀ (L : List Link) (db : DB) (x : Link),
      x ∈ L.foldl (fun d l => d.filter (fun y => y.id ≠ l.id)) db ↔
        x ∈ db ∧ ∀ l ∈ L, x.id ≠ l.id := by
  intro L
  induction L with
  | nil =>
    intro db x
    simp
  | cons l rest ih =>
    intro db x
    rw [List.foldl_cons, ih]
    rw [List.mem_filter]
    simp only [decide_eq_true_eq, List.mem_cons]
    constructor
    · rintro ⟨⟨hdb, hne⟩, hall⟩
      refine ⟨hdb, fun l2 hl2 => ?_⟩
      rcases hl2 with rfl | hl2
      · exact hne
      · exact hall l2 hl2
    · rintro ⟨hdb, hall⟩
      exact ⟨⟨hdb, hall l (Or.inl rfl)⟩, fun l2 hl2 => hall l2 (Or.inr hl2)⟩

/-- A clean expired sweep returns the count of expired links and leaves no
expired link behind. -/
theorem cleanup_expired_ok (now : Int) (db : DB) (r : Option Redis) (fails : Link → Bool)
    (h : ∀ l ∈ db.filter (expiredCond now), fails l = false) :
    (cleanup_expired_links now db r fails).1 = .ok (db.filter (expiredCond now)).length ∧
    (cleanup_expired_links now db r fails).2.1.filter (expiredCond now) = [] := by
  obtain ⟨h1, h2⟩ := cleanupLoop_ok fails (db.filter (expiredCond now)) 0 db r h
  rw [cleanup_expired_links]
  refine ⟨by rw [h1]; congr 1; omega, ?_⟩
  rw [h2, List.filter_eq_nil_iff]
  intro x hx hexp
  have hm := (mem_foldl_delete (db.filter (expiredCond now)) db x).mp hx
  exact hm.2 x (List.mem_filter.mpr ⟨hm.1, hexp⟩) rfl

/-- A failing deletion aborts the cleanup loop at the first failing link. -/
theorem cleanupLoop_fails (fails : Link → Bool) :
    ∀ (pre : List Link) (bad : Link) (post : List Link) (count : Nat) (db : DB)
      (r : Option Redis),
      (∀ l ∈ pre, fails l = false) → fails bad = true →
      (cleanupLoop fails (pre ++ bad :: post) count db r).1 = .exn "SQLAlchemyError" := by
  intro pre
  induction pre with
  | nil =>
    intro bad post count db r _ hbad
    rw [List.nil_append, cleanupLoop, if_pos hbad]
  | cons l rest ih =>
    intro bad post count db r h hbad
    have hl : fails l = false := h l (List.mem_cons_self l rest)
    rw [List.cons_append, cleanupLoop, if_neg (by rw [hl]; exact Bool.false_ne_true)]
    exact ih bad post (count + 1) _ _ (fun x hx => h x (List.mem_cons_of_mem l hx)) hbad

/-- C8 counterexample: with two expired links and the first deletion
failing, the sweep aborts immediately: no count is produced and the second
expired link is left untouched (no per-item recovery), contradicting
"count and continue". -/
theorem cleanup_abort_counterexample :
    cleanup_expired_links 0 [expiredLink1, expiredLink2] (some [])
        (fun l => l.id = "E1")
      = (.exn "SQLAlchemyError", [expiredLink1, expiredLink2], some []) := rfl

/-- C8 amended: a clean sweep counts and removes every expired link, but a
single failing deletion aborts the whole batch with an uncaught store
error; the failure is swallowed one level up by the cleanup job's handler,
so a later clean cycle still removes every remaining expired link. -/
theorem cleanup_failure_amended :
    (∀ (now : Int) (db : DB) (r : Option Redis) (fails : Link → Bool),
      (∀ l ∈ db.filter (expiredCond now), fails l = false) →
      (cleanup_expired_links now db r fails).1 = .ok (db.filter (expiredCond now)).length ∧
      (cleanup_expired_links now db r fails).2.1.filter (expiredCond now) = []) ∧
    (∀ (now : Int) (db : DB) (r : Option Redis) (fails : Link → Bool)
      (pre : List Link) (bad : Link) (post : List Link),
      db.filter (expiredCond now) = pre ++ bad :: post →
      (∀ l ∈ pre, fails l = false) → fails bad = true →
      (cleanup_expired_links now db r fails).1 = .exn "SQLAlchemyError") ∧
    (∀ (now cutoff : Int) (failsE1 failsU1 : Link → Bool) (db : DB) (r : Option Redis),
      ((cleanup_job_cycle now cutoff false (fun _ => false) (fun _ => false)
          (cleanup_job_cycle now cutoff false failsE1 failsU1 db r).1
          (cleanup_job_cycle now cutoff false failsE1 failsU1 db r).2).1).filter
        (expiredCond now) = []) := by
  refine ⟨cleanup_expired_ok, ?_, ?_⟩
  · intro now db r fails pre bad post hsplit hpre hbad
    rw [cleanup_expired_links, hsplit]
    exact cleanupLoop_fails fails pre bad post 0 db r hpre hbad
  · intro now cutoff failsE1 failsU1 db r
    set db2 : DB := (cleanup_job_cycle now cutoff false failsE1 failsU1 db r).1 with hdb2
    set r2 : Option Redis := (cleanup_job_cycle now cutoff false failsE1 failsU1 db r).2
      with hr2
    obtain ⟨h1, h2⟩ := cleanup_expired_ok now db2 r2 (fun _ => false) (fun _ _ => rfl)
    rcases hs : cleanup_expired_links now db2 r2 (fun _ => false) with ⟨res, db3, r3⟩
    rw [hs] at h1 h2
    simp only at h1 h2
    rw [cleanup_job_cycle, hs, h1]
    exact h2

/-- Concrete instance of `cleanup_failure_amended`: a clean sweep over one
expired and one live link counts exactly the expired one. -/
theorem cleanup_failure_amended_witness :
    (cleanup_expired_links 0 [expiredLink1, ownedLink] (some []) (fun _ => false)).1
      = .ok 1 := by
  have h := (cleanup_failure_amended.1 0 [expiredLink1, ownedLink] (some [])
    (fun _ => false) (fun _ _ => rfl)).1
  exact h

/-!
### C10: the stats-snapshot encoding round trip
-/

/-- Unpacking of `safeChar`. -/
theorem safeChar_props (c : Char) (h : safeChar c = true) :
    c ≠ squote ∧ c ≠ dquote ∧
      ((32 ≤ c.toNat ∧ c.toNat ≤ 126) ∨ c.toNat = 9 ∨ c.toNat = 10 ∨ c.toNat = 13) := by
  simp only [safeChar, Bool.and_eq_true, Bool.or_eq_true, decide_eq_true_eq] at h
  tauto

/-- The quote substitution distributes over append. -/
theorem mapQuote_append (a b : List Char) :
    mapQuote (a ++ b) = mapQuote a ++ mapQuote b :=
  List.map_append _ a b

/-- The quote substitution on a cons. -/
theorem mapQuote_cons (c : Char) (l : List Char) :
    mapQuote (c :: l) = (if c = squote then dquote else c) :: mapQuote l := rfl

/-- The quote substitution is the identity on quote-free lists. -/
theorem mapQuote_id_of (l : List Char) (h : ∀ c ∈ l, c ≠ squote) : mapQuote l = l := by
  induction l with
  | nil => rfl
  | cons c cs ih =>
    rw [mapQuote_cons, if_neg (h c (List.mem_cons_self c cs))]
    rw [ih (fun x hx => h x (List.mem_cons_of_mem c hx))]

/-- On safe characters the full `repr` escape agrees with the restricted
one. -/
theorem pyEscapeChar_safe (c : Char) (h : safeChar c = true) :
    pyEscapeChar squote c = escSafeChar c := by
  obtain ⟨hsq, _, hrange⟩ := safeChar_props c h
  rw [pyEscapeChar, escSafeChar]
  by_cases hb : c = bslash
  · rw [if_pos hb, if_pos hb]
  · rw [if_neg hb, if_neg hb]
    by_cases h9 : c.toNat = 9
    · rw [if_pos h9, if_pos h9]
    · rw [if_neg h9, if_neg h9]
      by_cases h10 : c.toNat = 10
      · rw [if_pos h10, if_pos h10]
      · rw [if_neg h10, if_neg h10]
        by_cases h13 : c.toNat = 13
        · rw [if_pos h13, if_pos h13]
        · rw [if_neg h13, if_neg h13, if_neg hsq,
            if_neg (show ¬ ((c.toNat < 32 || c.toNat = 127) = true) from by
              simp only [Bool.or_eq_true, decide_eq_true_eq]
              rcases hrange with ⟨hl, hr⟩ | hr | hr | hr <;> omega)]

/-- Characters produced by the restricted escape are never single
quotes. -/
theorem escSafeChar_no_squote (c : Char) (h : safeChar c = true) :
    ∀ x ∈ escSafeChar c, x ≠ squote := by
  intro x hx
  rw [escSafeChar] at hx
  obtain ⟨hsq, _, _⟩ := safeChar_props c h
  split_ifs at hx <;>
    simp only [List.mem_cons, List.mem_singleton, List.not_mem_nil, or_false] at hx
  · rcases hx with rfl | rfl <;> decide
  · rcases hx with rfl | rfl <;> decide
  · rcases hx with rfl | rfl <;> decide
  · rcases hx with rfl | rfl <;> decide
  · subst hx
    exact hsq

/-- The restricted escape of a safe list is untouched by the quote
substitution. -/
theorem mapQuote_esc (l : List Char) (h : ∀ c ∈ l, safeChar c = true) :
    mapQuote (l.flatMap escSafeChar) = l.flatMap escSafeChar := by
  refine mapQuote_id_of _ ?_
  intro x hx
  rw [List.mem_flatMap] at hx
  obtain ⟨c, hc, hxc⟩ := hx
  exact escSafeChar_no_squote c (h c hc) x hxc

/-- On a safe list the full escape agrees with the restricted one. -/
theorem flatMap_esc_eq (l : List Char) (h : ∀ c ∈ l, safeChar c = true) :
    l.flatMap (pyEscapeChar squote) = l.flatMap escSafeChar := by
  induction l with
  | nil => rfl
  | cons c cs ih =>
    rw [List.flatMap_cons, List.flatMap_cons,
      pyEscapeChar_safe c (h c (List.mem_cons_self c cs)),
      ih (fun x hx => h x (List.mem_cons_of_mem c hx))]

/-- After the quote substitution, the `repr` of a safe string is the
double-quoted restricted escape of its characters. -/
theorem mapQuote_reprStr (s : String) (h : safeStr s = true) :
    mapQuote (pyReprStrChars s) = dquote :: s.data.flatMap escSafeChar ++ [dquote] := by
  have hall : ∀ c ∈ s.data, safeChar c = true := List.all_eq_true.mp h
  have hnc : s.data.contains squote = false := by
    have hnm : ¬ squote ∈ s.data := fun hm => (safeChar_props _ (hall _ hm)).1 rfl
    rcases hc : s.data.contains squote with _ | _
    · rfl
    · exact absurd (List.elem_iff.mp hc) hnm
  rw [pyReprStrChars, if_neg (by rw [hnc]; simp)]
  rw [flatMap_esc_eq s.data hall]
  rw [show squote :: s.data.flatMap escSafeChar ++ [squote]
      = squote :: (s.data.flatMap escSafeChar ++ [squote]) from rfl]
  rw [mapQuote_cons, if_pos rfl, mapQuote_append, mapQuote_esc s.data hall]
  rfl

/-- The JSON string-literal parser inverts the restricted escape of a safe
character list. -/
theorem pstrBody_esc (rest : List Char) :
    ∀ (s : List Char), (∀ c ∈ s, safeChar c = true) →
      pstrBody (s.flatMap escSafeChar ++ dquote :: rest) = some (s, rest) := by
  intro s
  induction s with
  | nil =>
    intro _
    rw [List.flatMap_nil, List.nil_append, pstrBody.eq_def]
    simp
  | cons c cs ih =>
    intro h
    have hc := h c (List.mem_cons_self c cs)
    obtain ⟨hsq, hdq, hrange⟩ := safeChar_props c hc
    have hrec := ih (fun x hx => h x (List.mem_cons_of_mem c hx))
    rw [List.flatMap_cons, List.append_assoc, escSafeChar.eq_def]
    split_ifs with hb h9 h10 h13
    · subst hb
      simp only [List.cons_append, List.nil_append]
      rw [pstrBody.eq_def]
      simp +decide [jsonUnescape, hrec]
    · have hc9 : c = Char.ofNat 9 := char_eq_iff_toNat.mpr (by rw [h9]; decide)
      subst hc9
      simp only [List.cons_append, List.nil_append]
      rw [pstrBody.eq_def]
      simp +decide [jsonUnescape, hrec]
    · have hc10 : c = Char.ofNat 10 := char_eq_iff_toNat.mpr (by rw [h10]; decide)
      subst hc10
      simp only [List.cons_append, List.nil_append]
      rw [pstrBody.eq_def]
      simp +decide [jsonUnescape, hrec]
    · have hc13 : c = Char.ofNat 13 := char_eq_iff_toNat.mpr (by rw [h13]; decide)
      subst hc13
      simp only [List.cons_append, List.nil_append]
      rw [pstrBody.eq_def]
      simp +decide [jsonUnescape, hrec]
    · simp only [List.singleton_append]
      rw [pstrBody.eq_def]
      simp [hdq, hb, hrec]

/-- Every character of a decimal rendering is a digit. -/
theorem natDecimalChars_all_digits :
    ∀ n : Nat, ∀ c ∈ natDecimalChars n, isDigitChar c = true := by
  intro n
  induction n using Nat.strong_induction_on with
  | _ n ih =>
    intro c hc
    rw [natDecimalChars] at hc
    split_ifs at hc with h
    · simp only [List.mem_singleton] at hc
      subst hc
      interval_cases n <;> decide
    · rw [List.mem_append, List.mem_singleton] at hc
      rcases hc with hc | hc
      · exact ih (n / 10)
          (Nat.div_lt_self (Nat.lt_of_lt_of_le (by norm_num) (Nat.le_of_not_lt h))
            (by norm_num)) c hc
      · subst hc
        have hm : n % 10 < 10 := Nat.mod_lt _ (by norm_num)
        set m := n % 10 with hmm
        clear_value m
        interval_cases m <;> decide

/-- A decimal rendering is never empty. -/
theorem natDecimalChars_ne_nil (n : Nat) : natDecimalChars n ≠ [] := by
  rw [natDecimalChars]
  split_ifs <;> simp

/-- The digit scanner stops at a non-digit head. -/
theorem pdigitsAux_stop (l : List Char) (acc : Nat) (h : notDigitHead l) :
    pdigitsAux l acc = (acc, l) := by
  cases l with
  | nil => rfl
  | cons c cs =>
    have hc : isDigitChar c = false := h
    simp [pdigitsAux, hc]

/-- The digit scanner consumes a decimal rendering completely. -/
theorem pdigitsAux_append (n : Nat) :
    ∀ (acc : Nat) (rest : List Char),
      pdigitsAux (natDecimalChars n ++ rest) acc
        = pdigitsAux rest (acc * 10 ^ (natDecimalChars n).length + n) := by
  induction n using Nat.strong_induction_on with
  | _ n ih =>
    intro acc rest
    rw [natDecimalChars]
    split_ifs with h
    · have htn : (Char.ofNat (48 + n)).toNat = 48 + n := by interval_cases n <;> decide
      have hd : isDigitChar (Char.ofNat (48 + n)) = true := by
        simp only [isDigitChar, htn, Bool.and_eq_true, decide_eq_true_eq]
        omega
      simp only [List.singleton_append, List.length_singleton]
      rw [pdigitsAux, if_pos hd, htn]
      congr 1
      simp only [pow_one]
      omega
    · have hlt : n / 10 < n :=
        Nat.div_lt_self (Nat.lt_of_lt_of_le (by norm_num) (Nat.le_of_not_lt h)) (by norm_num)
      have htn : (Char.ofNat (48 + n % 10)).toNat = 48 + n % 10 := by
        have hm : n % 10 < 10 := Nat.mod_lt _ (by norm_num)
        set m := n % 10 with hmm
        clear_value m
        interval_cases m <;> decide
      have hd : isDigitChar (Char.ofNat (48 + n % 10)) = true := by
        have hm : n % 10 < 10 := Nat.mod_lt _ (by norm_num)
        simp only [isDigitChar, htn, Bool.and_eq_true, decide_eq_true_eq]
        omega
      rw [List.append_assoc, ih (n / 10) hlt acc, List.singleton_append,
        pdigitsAux, if_pos hd, htn]
      congr 1
      rw [List.length_append, List.length_singleton, pow_succ, ← Nat.div_add_mod n 10]
      ring_nf
      omega

/-- The digit scanner reads back a decimal rendering followed by a
non-digit. -/
theorem pdigits_nat (n : Nat) (rest : List Char) (h : notDigitHead rest) :
    pdigitsAux (natDecimalChars n ++ rest) 0 = (n, rest) := by
  rw [pdigitsAux_append, pdigitsAux_stop _ _ h]
  simp

/-- A decimal rendering starts with a digit. -/
theorem natDecimal_head_digit (n : Nat) :
    ∃ c cs, natDecimalChars n = c :: cs ∧ isDigitChar c = true := by
  cases hh : natDecimalChars n with
  | nil => exact absurd hh (natDecimalChars_ne_nil n)
  | cons c cs =>
    refine ⟨c, cs, rfl, natDecimalChars_all_digits n c ?_⟩
    rw [hh]
    exact List.mem_cons_self c cs

/-- Digits are not quote characters: the quote substitution leaves an
integer rendering unchanged. -/
theorem mapQuote_intDecimal (n : Int) :
    mapQuote (intDecimalChars n) = intDecimalChars n := by
  refine mapQuote_id_of _ ?_
  intro c hc
  rw [intDecimalChars] at hc
  split_ifs at hc
  · rcases List.mem_cons.mp hc with rfl | hc
    · decide
    · have := natDecimalChars_all_digits _ c hc
      simp only [isDigitChar, Bool.and_eq_true, decide_eq_true_eq] at this
      rw [ne_eq, char_eq_iff_toNat]
      intro he
      rw [he] at this
      revert this
      decide
  · have := natDecimalChars_all_digits _ c hc
    simp only [isDigitChar, Bool.and_eq_true, decide_eq_true_eq] at this
    rw [ne_eq, char_eq_iff_toNat]
    intro he
    rw [he] at this
    revert this
    decide

/-- The JSON value parser reads back an integer rendering. -/
theorem pvalue_int (n : Int) (rest : List Char) (h : notDigitHead rest) :
    pvalue (intDecimalChars n ++ rest) = some (.vint n, rest) := by
  rw [intDecimalChars]
  split_ifs with hneg
  · obtain ⟨c, cs, hnd, hdc⟩ := natDecimal_head_digit n.natAbs
    have hds := pdigits_nat n.natAbs rest h
    rw [hnd] at hds ⊢
    rw [pvalue.eq_def]
    simp only [List.cons_append]
    rw [if_neg (by decide), if_pos trivial, if_pos hdc]
    rw [show ((c :: cs ++ rest : List Char)) = c :: (cs ++ rest) from rfl] at hds
    rw [hds]
    have : -(n.natAbs : Int) = n := by omega
    rw [this]
  · obtain ⟨c, cs, hnd, hdc⟩ := natDecimal_head_digit n.toNat
    have hds := pdigits_nat n.toNat rest h
    rw [hnd] at hds ⊢
    have hc48 : 48 ≤ c.toNat ∧ c.toNat ≤ 57 := by
      simpa [isDigitChar] using hdc
    rw [pvalue.eq_def]
    simp only [List.cons_append]
    rw [if_neg (by rw [char_eq_iff_toNat, show dquote.toNat = 34 from rfl]; omega),
      if_neg (by rw [char_eq_iff_toNat, show Char.toNat '-' = 45 from rfl]; omega),
      if_pos hdc]
    rw [show ((c :: cs ++ rest : List Char)) = c :: (cs ++ rest) from rfl] at hds
    rw [hds]
    have : (n.toNat : Int) = n := by omega
    rw [this]

/-- The JSON value parser reads back a safe string rendering. -/
theorem pvalue_str (s : String) (hs : safeStr s = true) (rest : List Char) :
    pvalue (dquote :: s.data.flatMap escSafeChar ++ dquote :: rest)
      = some (.vstr s, rest) := by
  have hred : pvalue (dquote :: s.data.flatMap escSafeChar ++ dquote :: rest)
      = Option.map (fun p => (PyVal.vstr (String.mk p.1), p.2))
          (pstrBody (s.data.flatMap escSafeChar ++ dquote :: rest)) := rfl
  rw [hred, pstrBody_esc rest s.data (List.all_eq_true.mp hs)]
  rfl

/-- The JSON value parser rejects Python's `None` rendering. -/
theorem pvalue_None (rest : List Char) : pvalue (['N', 'o', 'n', 'e'] ++ rest) = none := by
  rw [pvalue.eq_def]
  simp +decide [isDigitChar]

/-- `skipWs` keeps a list headed by a non-whitespace character. -/
theorem skipWs_cons_of (c : Char) (h : isJsonWs c = false) :
    ∀ l : List Char, skipWs (c :: l) = c :: l := by
  intro l
  simp [skipWs, List.dropWhile, h]

/-- `skipWs` drops a leading space. -/
theorem skipWs_space (l : List Char) : skipWs (' ' :: l) = skipWs l := by
  simp [skipWs, List.dropWhile, isJsonWs]

/-- One step of the member parser at positive fuel. -/
theorem pmembers_succ (fuel : Nat) (cs : List Char) :
    pmembers (fuel + 1) cs = pmembersBody fuel cs := rfl

/-- The member parser ignores a leading space. -/
theorem pmembers_ws (f : Nat) (l : List Char) :
    pmembers f (' ' :: l) = pmembers f l := by
  cases f with
  | zero => rfl
  | succ f => simp only [pmembers_succ, pmembersBody, skipWs_space]

/-- An integer rendering is not headed by whitespace. -/
theorem skipWs_int (n : Int) (tail : List Char) :
    skipWs (intDecimalChars n ++ tail) = intDecimalChars n ++ tail := by
  rw [intDecimalChars]
  split_ifs
  · rw [List.cons_append]
    exact skipWs_cons_of '-' (by decide) _
  · obtain ⟨c, cs, hnd, hdc⟩ := natDecimal_head_digit n.toNat
    rw [hnd, List.cons_append]
    refine skipWs_cons_of c ?_ _
    have hc48 : 48 ≤ c.toNat ∧ c.toNat ≤ 57 := by simpa [isDigitChar] using hdc
    have hnw : ¬ (isJsonWs c = true) := by
      simp only [isJsonWs, Bool.or_eq_true, decide_eq_true_eq]
      omega
    exact Bool.not_eq_true _ ▸ hnw

/-- Parsing the rendering of the last member of an object: consumes the
member and the closing brace. -/
theorem pmembers_step_last (f : Nat) (k : String) (hk : safeStr k = true) (v : PyVal)
    (vchars rest2 : List Char)
    (hval : pvalue (vchars ++ rbrace :: rest2) = some (v, rbrace :: rest2))
    (hws : skipWs (vchars ++ rbrace :: rest2) = vchars ++ rbrace :: rest2) :
    pmembers (f + 1) (dquote :: (k.data.flatMap escSafeChar ++ dquote :: ':' :: ' ' ::
        (vchars ++ rbrace :: rest2))) = some ([(k, v)], rest2) := by
  have hmk : String.mk k.data = k := rfl
  rw [pmembers_succ]
  simp only [pmembersBody,
    skipWs_cons_of dquote (by decide),
    pstrBody_esc (':' :: ' ' :: (vchars ++ rbrace :: rest2)) k.data (List.all_eq_true.mp hk),
    skipWs_cons_of ':' (by decide), skipWs_space, hws, hval, hmk,
    skipWs_cons_of rbrace (by decide)]
  simp +decide

/-- Parsing the rendering of a non-final member of an object: consumes the
member and the comma-space separator, then continues. -/
theorem pmembers_step_cons (f : Nat) (k : String) (hk : safeStr k = true) (v : PyVal)
    (vchars rest : List Char)
    (hval : pvalue (vchars ++ ',' :: ' ' :: rest) = some (v, ',' :: ' ' :: rest))
    (hws : skipWs (vchars ++ ',' :: ' ' :: rest) = vchars ++ ',' :: ' ' :: rest) :
    pmembers (f + 1) (dquote :: (k.data.flatMap escSafeChar ++ dquote :: ':' :: ' ' ::
        (vchars ++ ',' :: ' ' :: rest)))
      = (pmembers f rest).map (fun p => ((k, v) :: p.1, p.2)) := by
  have hmk : String.mk k.data = k := rfl
  rw [pmembers_succ]
  simp only [pmembersBody,
    skipWs_cons_of dquote (by decide),
    pstrBody_esc (':' :: ' ' :: (vchars ++ ',' :: ' ' :: rest)) k.data (List.all_eq_true.mp hk),
    skipWs_cons_of ':' (by decide), skipWs_space, hws, hval, hmk,
    skipWs_cons_of ',' (by decide)]
  rw [pmembers_ws]
  simp

/-- For a safe value, the substituted rendering parses back to the value
and is not headed by whitespace. -/
theorem safeVal_chars (v : PyVal) (hv : safeVal v = true) (tail : List Char)
    (htail : notDigitHead tail) :
    pvalue (mapQuote (pyReprValChars v) ++ tail) = some (v, tail) ∧
    skipWs (mapQuote (pyReprValChars v) ++ tail) = mapQuote (pyReprValChars v) ++ tail := by
  cases v with
  | vnone => exact absurd hv (by simp [safeVal])
  | vint n =>
    rw [show pyReprValChars (PyVal.vint n) = intDecimalChars n from rfl, mapQuote_intDecimal]
    exact ⟨pvalue_int n tail htail, skipWs_int n tail⟩
  | vstr s =>
    have hs : safeStr s = true := hv
    rw [show pyReprValChars (PyVal.vstr s) = pyReprStrChars s from rfl, mapQuote_reprStr s hs]
    constructor
    · have hassoc : (dquote :: s.data.flatMap escSafeChar ++ [dquote]) ++ tail
          = (dquote :: s.data.flatMap escSafeChar) ++ dquote :: tail := by
        simp
      rw [hassoc]
      exact pvalue_str s hs tail
    · have hassoc : (dquote :: s.data.flatMap escSafeChar ++ [dquote]) ++ tail
          = dquote :: (s.data.flatMap escSafeChar ++ dquote :: tail) := by
        simp
      rw [hassoc]
      exact skipWs_cons_of dquote (by decide) _

/-- The substituted member rendering parses back to the dictionary. -/
theorem pmembers_render (d : PyDict) :
    ∀ (f : Nat) (rest2 : List Char), safeDict d = true → d.length ≤ f → d ≠ [] →
      pmembers f (mapQuote (renderMembers d) ++ rbrace :: rest2) = some (d, rest2) := by
  induction d with
  | nil =>
    intro f rest2 _ _ hne
    exact absurd rfl hne
  | cons kv d' ih =>
    intro f rest2 hsafe hlen _
    obtain ⟨k, v⟩ := kv
    have hkv := List.all_eq_true.mp hsafe (k, v) (List.mem_cons_self _ _)
    rw [Bool.and_eq_true] at hkv
    have hk : safeStr k = true := hkv.1
    have hv : safeVal v = true := hkv.2
    have hsafe' : safeDict d' = true := by
      rw [safeDict, List.all_cons, Bool.and_eq_true] at hsafe
      exact hsafe.2
    cases f with
    | zero =>
      rw [List.length_cons] at hlen
      omega
    | succ f =>
      cases d' with
      | nil =>
        obtain ⟨hval, hws⟩ := safeVal_chars v hv (rbrace :: rest2)
          ((by decide : isDigitChar rbrace = false))
        have hshape : mapQuote (renderMembers [(k, v)]) ++ rbrace :: rest2
            = dquote :: (k.data.flatMap escSafeChar ++ dquote :: ':' :: ' ' ::
              (mapQuote (pyReprValChars v) ++ rbrace :: rest2)) := by
          rw [show renderMembers [(k, v)] = pyReprStrChars k ++ ':' :: ' ' :: pyReprValChars v
              from rfl,
            mapQuote_append, mapQuote_reprStr k hk, mapQuote_cons, mapQuote_cons,
            if_neg (by decide), if_neg (by decide)]
          simp [List.append_assoc]
        rw [hshape]
        exact pmembers_step_last f k hk v _ rest2 hval hws
      | cons kv2 d'' =>
        obtain ⟨hval, hws⟩ := safeVal_chars v hv
          (',' :: ' ' :: (mapQuote (renderMembers (kv2 :: d'')) ++ rbrace :: rest2))
          ((by decide : isDigitChar ',' = false))
        have hshape : mapQuote (renderMembers ((k, v) :: kv2 :: d'')) ++ rbrace :: rest2
            = dquote :: (k.data.flatMap escSafeChar ++ dquote :: ':' :: ' ' ::
              (mapQuote (pyReprValChars v) ++ ',' :: ' ' ::
                (mapQuote (renderMembers (kv2 :: d'')) ++ rbrace :: rest2))) := by
          rw [show renderMembers ((k, v) :: kv2 :: d'')
              = (pyReprStrChars k ++ ':' :: ' ' :: pyReprValChars v) ++ ',' :: ' ' ::
                renderMembers (kv2 :: d'') from rfl]
          rw [mapQuote_append, mapQuote_append, mapQuote_reprStr k hk,
            mapQuote_cons, mapQuote_cons, mapQuote_cons, mapQuote_cons,
            if_neg (by decide), if_neg (by decide), if_neg (by decide)]
          simp [List.append_assoc]
        rw [hshape, pmembers_step_cons f k hk v _ _ hval hws]
        rw [ih f rest2 hsafe' (by simp only [List.length_cons] at hlen ⊢; omega) (by simp)]
        rfl

/-- Each member contributes at least one rendered character. -/
theorem renderMembers_length_ge (d : PyDict) : d.length ≤ (renderMembers d).length := by
  induction d with
  | nil => simp [renderMembers]
  | cons kv d' ih =>
    have hent : 1 ≤ (renderEntry kv).length := by
      rw [renderEntry, pyReprStrChars]
      split_ifs <;> simp
    cases d' with
    | nil =>
      rw [show renderMembers [kv] = renderEntry kv from rfl]
      simpa using hent
    | cons kv2 d'' =>
      rw [show renderMembers (kv :: kv2 :: d'')
          = renderEntry kv ++ ',' :: ' ' :: renderMembers (kv2 :: d'') from rfl]
      rw [List.length_append, List.length_cons, List.length_cons, List.length_cons]
      rw [List.length_cons] at ih ⊢
      omega

/-- After the quote substitution a nonempty member rendering starts with a
double quote. -/
theorem mapQuote_renderMembers_head (kv : String × PyVal) (d' : PyDict) :
    ∃ L, mapQuote (renderMembers (kv :: d')) = dquote :: L := by
  obtain ⟨k, v⟩ := kv
  have h1 : ∃ q X, renderMembers ((k, v) :: d') = q :: X ∧ (q = squote ∨ q = dquote) := by
    have h2 : ∃ q X2, pyReprStrChars k = q :: X2 ∧ (q = squote ∨ q = dquote) := by
      rw [pyReprStrChars]
      split_ifs
      · exact ⟨dquote, _, rfl, Or.inr rfl⟩
      · exact ⟨squote, _, rfl, Or.inl rfl⟩
    obtain ⟨q, X2, hrs, hq⟩ := h2
    cases d' with
    | nil =>
      refine ⟨q, X2 ++ ':' :: ' ' :: pyReprValChars v, ?_, hq⟩
      rw [show renderMembers [(k, v)] = pyReprStrChars k ++ ':' :: ' ' :: pyReprValChars v
          from rfl, hrs, List.cons_append]
    | cons kv2 d'' =>
      refine ⟨q, X2 ++ ':' :: ' ' :: pyReprValChars v ++ ',' :: ' ' ::
        renderMembers (kv2 :: d''), ?_, hq⟩
      rw [show renderMembers ((k, v) :: kv2 :: d'')
          = (pyReprStrChars k ++ ':' :: ' ' :: pyReprValChars v) ++ ',' :: ' ' ::
            renderMembers (kv2 :: d'') from rfl, hrs]
      simp [List.append_assoc]
  obtain ⟨q, X, hqx, hq⟩ := h1
  rw [hqx, mapQuote_cons]
  rcases hq with rfl | rfl
  · exact ⟨mapQuote X, by rw [if_pos rfl]⟩
  · exact ⟨mapQuote X, by rw [if_neg (by decide)]⟩

/-- Reduction of the decoder on a brace-and-quote-headed payload. -/
theorem jsonLoads_obj (X : List Char) :
    jsonLoads (String.mk (lbrace :: dquote :: X))
      = (match pmembers ((dquote :: X).length + 1) (dquote :: X) with
         | some (d, r) => if (skipWs r).isEmpty = true then some d else none
         | none => none) := rfl

/-- The full decode of the substituted `str(dict)` rendering of a safe
dictionary returns the dictionary. -/
theorem jsonLoads_render (d : PyDict) (hd : safeDict d = true) :
    jsonLoads (String.mk (mapQuote (pyStrDict d).data)) = some d := by
  cases d with
  | nil => decide
  | cons kv d' =>
    obtain ⟨L, hL⟩ := mapQuote_renderMembers_head kv d'
    have hdata : mapQuote (pyStrDict (kv :: d')).data
        = lbrace :: dquote :: (L ++ [rbrace]) := by
      rw [show (pyStrDict (kv :: d')).data
          = (lbrace :: renderMembers (kv :: d')) ++ [rbrace] from rfl]
      rw [mapQuote_append, mapQuote_cons, if_neg (by decide), hL,
        show mapQuote [rbrace] = [rbrace] from by decide]
      simp
    have hlen2 : (kv :: d').length ≤ (dquote :: (L ++ [rbrace])).length + 1 := by
      have h5 := congrArg List.length hL
      rw [mapQuote, List.length_map, List.length_cons] at h5
      have h3 := renderMembers_length_ge (kv :: d')
      rw [h5] at h3
      simp only [List.length_cons, List.length_append, List.length_singleton] at h3 ⊢
      omega
    have hp := pmembers_render (kv :: d') ((dquote :: (L ++ [rbrace])).length + 1) [] hd
      hlen2 (by simp)
    rw [hL, List.cons_append] at hp
    rw [hdata, jsonLoads_obj, hp]
    simp [skipWs, List.dropWhile]

/-- Parsing a member whose rendered value is rejected fails. -/
theorem pmembers_step_valfail (f : Nat) (k : String) (hk : safeStr k = true)
    (vtail : List Char) (hval : pvalue vtail = none) (hws : skipWs vtail = vtail) :
    pmembers (f + 1) (dquote :: (k.data.flatMap escSafeChar ++ dquote :: ':' :: ' ' :: vtail))
      = none := by
  rw [pmembers_succ]
  simp only [pmembersBody, skipWs_cons_of dquote (by decide),
    pstrBody_esc (':' :: ' ' :: vtail) k.data (List.all_eq_true.mp hk),
    skipWs_cons_of ':' (by decide), skipWs_space, hws, hval]
  simp

/-- A member list containing a `None` value after a safe prefix never
parses. -/
theorem pmembers_none_fails (d1 : PyDict) (k : String) (d2 : PyDict) :
    ∀ (fuel : Nat) (rest2 : List Char), safeDict d1 = true → safeStr k = true →
      pmembers fuel (mapQuote (renderMembers (d1 ++ (k, PyVal.vnone) :: d2)) ++ rbrace :: rest2)
        = none := by
  induction d1 with
  | nil =>
    intro fuel rest2 _ hk
    cases fuel with
    | zero => rfl
    | succ f =>
      rw [List.nil_append]
      have hnone : mapQuote (pyReprValChars PyVal.vnone) = ['N', 'o', 'n', 'e'] := by decide
      cases d2 with
      | nil =>
        have hshape : mapQuote (renderMembers [(k, PyVal.vnone)]) ++ rbrace :: rest2
            = dquote :: (k.data.flatMap escSafeChar ++ dquote :: ':' :: ' ' ::
              (['N', 'o', 'n', 'e'] ++ rbrace :: rest2)) := by
          rw [show renderMembers [(k, PyVal.vnone)]
              = pyReprStrChars k ++ ':' :: ' ' :: pyReprValChars PyVal.vnone from rfl,
            mapQuote_append, mapQuote_reprStr k hk, mapQuote_cons, mapQuote_cons,
            if_neg (by decide), if_neg (by decide), hnone]
          simp [List.append_assoc]
        rw [hshape]
        exact pmembers_step_valfail f k hk _ (pvalue_None _)
          (skipWs_cons_of 'N' (by decide) _)
      | cons kv2 d2' =>
        have hshape : mapQuote (renderMembers ((k, PyVal.vnone) :: kv2 :: d2')) ++
              rbrace :: rest2
            = dquote :: (k.data.flatMap escSafeChar ++ dquote :: ':' :: ' ' ::
              (['N', 'o', 'n', 'e'] ++ ',' :: ' ' ::
                (mapQuote (renderMembers (kv2 :: d2')) ++ rbrace :: rest2))) := by
          rw [show renderMembers ((k, PyVal.vnone) :: kv2 :: d2')
              = (pyReprStrChars k ++ ':' :: ' ' :: pyReprValChars PyVal.vnone) ++ ',' :: ' ' ::
                renderMembers (kv2 :: d2') from rfl,
            mapQuote_append, mapQuote_append, mapQuote_reprStr k hk,
            mapQuote_cons, mapQuote_cons, mapQuote_cons, mapQuote_cons,
            if_neg (by decide), if_neg (by decide), if_neg (by decide), hnone]
          simp [List.append_assoc]
        rw [hshape]
        exact pmembers_step_valfail f k hk _ (pvalue_None _)
          (skipWs_cons_of 'N' (by decide) _)
  | cons kv1 d1' ih =>
    intro fuel rest2 hsafe hk
    obtain ⟨k1, v1⟩ := kv1
    have hkv := List.all_eq_true.mp hsafe (k1, v1) (List.mem_cons_self _ _)
    rw [Bool.and_eq_true] at hkv
    have hk1 : safeStr k1 = true := hkv.1
    have hv1 : safeVal v1 = true := hkv.2
    have hsafe' : safeDict d1' = true := by
      rw [safeDict, List.all_cons, Bool.and_eq_true] at hsafe
      exact hsafe.2
    cases fuel with
    | zero => rfl
    | succ f =>
      obtain ⟨a, as, hD⟩ : ∃ a as, d1' ++ (k, PyVal.vnone) :: d2 = a :: as := by
        cases d1' with
        | nil => exact ⟨_, _, rfl⟩
        | cons x xs => exact ⟨_, _, rfl⟩
      obtain ⟨hval, hws⟩ := safeVal_chars v1 hv1
        (',' :: ' ' :: (mapQuote (renderMembers (a :: as)) ++ rbrace :: rest2))
        ((by decide : isDigitChar ',' = false))
      have hshape : mapQuote (renderMembers (((k1, v1) :: d1') ++ (k, PyVal.vnone) :: d2)) ++
            rbrace :: rest2
          = dquote :: (k1.data.flatMap escSafeChar ++ dquote :: ':' :: ' ' ::
            (mapQuote (pyReprValChars v1) ++ ',' :: ' ' ::
              (mapQuote (renderMembers (a :: as)) ++ rbrace :: rest2))) := by
        rw [List.cons_append, hD]
        rw [show renderMembers ((k1, v1) :: a :: as)
            = (pyReprStrChars k1 ++ ':' :: ' ' :: pyReprValChars v1) ++ ',' :: ' ' ::
              renderMembers (a :: as) from rfl,
          mapQuote_append, mapQuote_append, mapQuote_reprStr k1 hk1,
          mapQuote_cons, mapQuote_cons, mapQuote_cons, mapQuote_cons,
          if_neg (by decide), if_neg (by decide), if_neg (by decide)]
        simp [List.append_assoc]
      rw [hshape, pmembers_step_cons f k1 hk1 v1 _ _ hval hws]
      rw [← hD, ih f rest2 hsafe' hk]
      rfl

/-- `str(dict)` is never the empty string. -/
theorem pyStrDict_ne_empty (d : PyDict) : pyStrDict d ≠ "" := by
  intro h
  have h2 := congrArg String.data h
  rw [show (pyStrDict d).data = (lbrace :: renderMembers d) ++ [rbrace] from rfl] at h2
  simp at h2

/-- The decode fails on the rendering of a dictionary with a `None` value
after a safe prefix. -/
theorem jsonLoads_render_fails (d1 : PyDict) (k : String) (d2 : PyDict)
    (h1 : safeDict d1 = true) (hk : safeStr k = true) :
    jsonLoads (String.mk (mapQuote (pyStrDict (d1 ++ (k, PyVal.vnone) :: d2)).data)) = none := by
  obtain ⟨kv, d', hD⟩ : ∃ kv d', d1 ++ (k, PyVal.vnone) :: d2 = kv :: d' := by
    cases d1 with
    | nil => exact ⟨_, _, rfl⟩
    | cons a as => exact ⟨_, _, rfl⟩
  obtain ⟨L, hL⟩ := mapQuote_renderMembers_head kv d'
  have hdata : mapQuote (pyStrDict (kv :: d')).data = lbrace :: dquote :: (L ++ [rbrace]) := by
    rw [show (pyStrDict (kv :: d')).data
        = (lbrace :: renderMembers (kv :: d')) ++ [rbrace] from rfl]
    rw [mapQuote_append, mapQuote_cons, if_neg (by decide), hL,
      show mapQuote [rbrace] = [rbrace] from by decide]
    simp
  have hp := pmembers_none_fails d1 k d2 ((dquote :: (L ++ [rbrace])).length + 1) [] h1 hk
  rw [hD] at hp
  rw [hL, List.cons_append] at hp
  rw [hD, hdata, jsonLoads_obj, hp]

/-- Reading a just-cached snapshot decodes the substituted rendering. -/
theorem stats_cache_read (r : Redis) (code : String) (d : PyDict) :
    get_cached_link_stats (cache_link_stats (some r) code d) code
      = (match jsonLoads (String.mk (mapQuote (pyStrDict d).data)) with
         | some d2 => .ok d2
         | none => .error) := by
  simp only [cache_link_stats, get_cached_link_stats, redisGet_set_self]
  rw [if_neg (pyStrDict_ne_empty d)]

/-- C10 counterexample: a stats dictionary whose only value is an
integer-free, quote-free string (a single BEL control character) does not
round-trip: `repr` renders it as a `\x07` escape, which `json.loads`
rejects, so the read raises instead of returning the dictionary. -/
theorem stats_roundtrip_counterexample :
    valuesIntOrQuoteFreeStr [("original_url", .vstr (String.mk [Char.ofNat 7]))] = true ∧
    get_cached_link_stats (cache_link_stats (some []) "c"
        [("original_url", .vstr (String.mk [Char.ofNat 7]))]) "c" = .error := by
  constructor
  · decide
  · decide

/-- C10 amended: the snapshot cache round-trips every dictionary whose
keys and values are integers or strings of printable characters (tab,
newline and carriage return included) free of quote characters; a
snapshot of a link whose `last_accessed_at` is `None` and whose other
string fields (short code, URL, rendered timestamp) are printable and
quote-free is read back as a parse error (`None` is not JSON after the
quote substitution); and quote or control characters inside a value
break the round trip at concrete snapshots: a double-quote value and a
control-character value each read back as a parse error, while a value
containing single quotes is silently read back as a different
dictionary. -/
theorem stats_roundtrip_amended :
    (∀ (r : Redis) (code : String) (d : PyDict), safeDict d = true →
      get_cached_link_stats (cache_link_stats (some r) code d) code = .ok d) ∧
    (∀ (r : Redis) (code : String) (iso : Int → String) (link : Link),
      link.last_accessed_at = none → safeStr link.short_code = true →
      safeStr link.original_url = true →
      (∀ t, link.created_at = some t → safeStr (iso t) = true) →
      get_cached_link_stats (cache_link_stats (some r) code (link.to_stats_dict iso)) code
        = .error) ∧
    (get_cached_link_stats (cache_link_stats (some []) "c"
        [("k", .vstr (String.mk [dquote]))]) "c" = .error) ∧
    (get_cached_link_stats (cache_link_stats (some []) "c"
        [("k", .vstr (String.mk [Char.ofNat 1]))]) "c" = .error) ∧
    (get_cached_link_stats (cache_link_stats (some []) "c"
        [("a", .vstr quoteyVal)]) "c"
      = .ok [("a", .vstr "x"), ("b", .vstr "y")] ∧
     ([("a", PyVal.vstr "x"), ("b", PyVal.vstr "y")] : PyDict)
       ≠ [("a", PyVal.vstr quoteyVal)]) := by
  refine ⟨?_, ?_, by decide, by decide, by decide, by decide⟩
  · intro r code d hd
    rw [stats_cache_read, jsonLoads_render d hd]
  · intro r code iso link hlast hsc hou hiso
    rw [stats_cache_read]
    cases hcr : link.created_at with
    | some t =>
      have hd : link.to_stats_dict iso
          = [("short_code", PyVal.vstr link.short_code),
             ("original_url", PyVal.vstr link.original_url),
             ("created_at", PyVal.vstr (iso t)),
             ("access_count", PyVal.vint link.access_count)]
            ++ ("last_accessed_at", PyVal.vnone) :: [] := by
        rw [Link.to_stats_dict, hcr, hlast]
        rfl
      rw [hd, jsonLoads_render_fails _ _ _
        (by simp +decide [safeDict, safeVal, hsc, hou, hiso t hcr]) (by decide)]
    | none =>
      have hd : link.to_stats_dict iso
          = [("short_code", PyVal.vstr link.short_code),
             ("original_url", PyVal.vstr link.original_url)]
            ++ ("created_at", PyVal.vnone) ::
              [("access_count", PyVal.vint link.access_count),
               ("last_accessed_at", PyVal.vnone)] := by
        rw [Link.to_stats_dict, hcr, hlast]
        rfl
      rw [hd, jsonLoads_render_fails _ _ _
        (by simp +decide [safeDict, safeVal, hsc, hou]) (by decide)]

/-- Concrete instance of `stats_roundtrip_amended`: a plain snapshot
round-trips, and a never-accessed link's snapshot fails to read back. -/
theorem stats_roundtrip_amended_witness :
    get_cached_link_stats (cache_link_stats (some []) "abc"
        [("short_code", .vstr "abc"), ("access_count", .vint 5)]) "abc"
      = .ok [("short_code", .vstr "abc"), ("access_count", .vint 5)] ∧
    get_cached_link_stats (cache_link_stats (some []) "abc"
        (ownedLink.to_stats_dict (fun _ => "1970-01-01T00:00:00"))) "abc" = .error := by
  constructor
  · exact stats_roundtrip_amended.1 [] "abc"
      [("short_code", .vstr "abc"), ("access_count", .vint 5)] (by decide)
  · exact stats_roundtrip_amended.2.1 [] "abc" (fun _ => "1970-01-01T00:00:00") ownedLink
      rfl (by decide) (by decide)
      (fun t _ => (by decide : safeStr "1970-01-01T00:00:00" = true))
